import Mathlib

/-!
Shallow embedding of the `dyl` toolchain (repository `scrabsha/dyl`): the
bytecode codec (`dyl-bytecode`), the compiler pipeline (`dyl-compiler`) and
the stack virtual machine (`dyl-vm`), together with theorems checking the
natural-language specification against the code.

Modelling conventions:
* Rust machine integers are modelled as `Nat` (for `u8`/`u16`/`u32`/`usize`
  wire values and offsets) and `Int` (for `i32` values), with explicit
  `% 2^w` wrapping where the Rust code can overflow.  `usize` subtraction,
  which wraps in release builds, is modelled by `wrapSub` (mod `2^64`).
* Rust slices of bytes are `List Nat` with every element `< 256`.
* Fallible Rust code returns `Except`/`Option`; `anyhow` context layers are
  dropped, keeping the root error value.  Rust panics (`unwrap`, `expect`,
  integer-parse `unwrap`) are modelled by an `Option`/failure layer.
* The source tree mixes files from several revisions of the repository.
  Definitions are taken from the current-revision files
  (`operations.rs`, `runnable.rs`, `lowering.rs`, `context.rs`, `ty.rs`,
  `type_checker.rs`, `parser.rs`, `instruction.rs`, `ast.rs`, `value.rs`).
  A few small connecting pieces exist only in stale revisions and are
  modelled from the spec; each such definition carries a doc comment
  starting with `Modelled from the spec:`.
-/

namespace Dyl

/-! ## Bytecode codec (`dyl-bytecode/src/operations.rs`) -/

namespace Bytecode

/-- `DecodingError` from `operations.rs`. -/
inductive DecodingError
  | unknownOpcode (id : Nat)
  | unexpectedEof
  deriving Repr, DecidableEq

/-- The 13-opcode instruction set (`Instruction` in `lib.rs`, one
constructor per `Operation` of `operations.rs`, including `Neg`, `Mul`
and `Pop`). -/
inductive Instruction
  | pushI (val : Int)
  | addI
  | fStop
  | pushCopy (idx : Nat)
  | call (ptr : Nat)
  | ret (shrinkOffset ipOffset : Nat)
  | resV (count : Nat)
  | popCopy (idx : Nat)
  | goto (addr : Nat)
  | condJmp (negativeAddr nullAddr positiveAddr : Nat)
  | neg
  | mul
  | pop (count : Nat)
  deriving Repr, DecidableEq

/-- `u16::to_be_bytes` (`dump_two`). -/
def dumpTwo (n : Nat) : List Nat :=
  [n / 256 % 256, n % 256]

/-- `u32::to_be_bytes` (`dump_four`). -/
def dumpFour (n : Nat) : List Nat :=
  [n / 16777216 % 256, n / 65536 % 256, n / 256 % 256, n % 256]

/-- `pump_one` from `operations.rs`. -/
def pumpOne : List Nat → Except DecodingError (Nat × List Nat)
  | [] => .error .unexpectedEof
  | b :: rest => .ok (b, rest)

/-- `pump_two` from `operations.rs` (`u16::from_be_bytes`). -/
def pumpTwo : List Nat → Except DecodingError (Nat × List Nat)
  | a :: b :: rest => .ok (a * 256 + b, rest)
  | _ => .error .unexpectedEof

/-- `pump_four` from `operations.rs` (`u32::from_be_bytes`). -/
def pumpFour : List Nat → Except DecodingError (Nat × List Nat)
  | a :: b :: c :: d :: rest => .ok (((a * 256 + b) * 256 + c) * 256 + d, rest)
  | _ => .error .unexpectedEof

/-- The `i32 as u32` cast used by `PushI::encode`. -/
def u32ofI32 (i : Int) : Nat :=
  (i % (4294967296 : Int)).toNat

/-- The `u32 as i32` cast used by `PushI::decode`. -/
def i32ofU32 (n : Nat) : Int :=
  if n < 2147483648 then (n : Int) else (n : Int) - 4294967296

/-- `Operation::SIZE` of each instruction. -/
def size : Instruction → Nat
  | .pushI _ => 5
  | .addI => 1
  | .fStop => 1
  | .pushCopy _ => 3
  | .call _ => 5
  | .ret _ _ => 5
  | .resV _ => 3
  | .popCopy _ => 3
  | .goto _ => 5
  | .condJmp _ _ _ => 13
  | .neg => 1
  | .mul => 1
  | .pop _ => 3

/-- `Operation::ID` of each instruction (the `next_id!` chain in
`operations.rs`). -/
def idOf : Instruction → Nat
  | .pushI _ => 0
  | .addI => 1
  | .fStop => 2
  | .pushCopy _ => 3
  | .call _ => 4
  | .ret _ _ => 5
  | .resV _ => 6
  | .popCopy _ => 7
  | .goto _ => 8
  | .condJmp _ _ _ => 9
  | .neg => 10
  | .mul => 11
  | .pop _ => 12

/-- `Operation::encode` of each instruction, dispatched as in
`encode.rs` (`Instruction::encode`): the opcode byte followed by the
big-endian operands. -/
def encode : Instruction → List Nat
  | .pushI v => 0 :: dumpFour (u32ofI32 v)
  | .addI => [1]
  | .fStop => [2]
  | .pushCopy i => 3 :: dumpTwo i
  | .call p => 4 :: dumpFour p
  | .ret s ip => 5 :: (dumpTwo s ++ dumpTwo ip)
  | .resV c => 6 :: dumpTwo c
  | .popCopy i => 7 :: dumpTwo i
  | .goto a => 8 :: dumpFour a
  | .condJmp n z p => 9 :: (dumpFour n ++ dumpFour z ++ dumpFour p)
  | .neg => [10]
  | .mul => [11]
  | .pop c => 12 :: dumpTwo c

/-- `PushI::decode_and_wrap`: parse the operand bytes, return the
instruction, its `SIZE`, and the remaining tail. -/
def decodeAndWrapPushI (input : List Nat) :
    Except DecodingError (Instruction × Nat × List Nat) :=
  match pumpFour input with
  | .error e => .error e
  | .ok (i, input) => .ok (.pushI (i32ofU32 i), 5, input)

/-- `AddI::decode_and_wrap`. -/
def decodeAndWrapAddI (input : List Nat) :
    Except DecodingError (Instruction × Nat × List Nat) :=
  .ok (.addI, 1, input)

/-- `FStop::decode_and_wrap`. -/
def decodeAndWrapFStop (input : List Nat) :
    Except DecodingError (Instruction × Nat × List Nat) :=
  .ok (.fStop, 1, input)

/-- `PushCopy::decode_and_wrap`. -/
def decodeAndWrapPushCopy (input : List Nat) :
    Except DecodingError (Instruction × Nat × List Nat) :=
  match pumpTwo input with
  | .error e => .error e
  | .ok (idx, input) => .ok (.pushCopy idx, 3, input)

/-- `Call::decode_and_wrap`. -/
def decodeAndWrapCall (input : List Nat) :
    Except DecodingError (Instruction × Nat × List Nat) :=
  match pumpFour input with
  | .error e => .error e
  | .ok (idx, input) => .ok (.call idx, 5, input)

/-- `Ret::decode_and_wrap`: `shrink_offset` first, then `ip_offset`. -/
def decodeAndWrapRet (input : List Nat) :
    Except DecodingError (Instruction × Nat × List Nat) :=
  match pumpTwo input with
  | .error e => .error e
  | .ok (shrinkOffset, input) =>
    match pumpTwo input with
    | .error e => .error e
    | .ok (ipOffset, input) => .ok (.ret shrinkOffset ipOffset, 5, input)

/-- `ResV::decode_and_wrap`. -/
def decodeAndWrapResV (input : List Nat) :
    Except DecodingError (Instruction × Nat × List Nat) :=
  match pumpTwo input with
  | .error e => .error e
  | .ok (amount, input) => .ok (.resV amount, 3, input)

/-- `PopCopy::decode_and_wrap`. -/
def decodeAndWrapPopCopy (input : List Nat) :
    Except DecodingError (Instruction × Nat × List Nat) :=
  match pumpTwo input with
  | .error e => .error e
  | .ok (offset, input) => .ok (.popCopy offset, 3, input)

/-- `Goto::decode_and_wrap`. -/
def decodeAndWrapGoto (input : List Nat) :
    Except DecodingError (Instruction × Nat × List Nat) :=
  match pumpFour input with
  | .error e => .error e
  | .ok (addr, input) => .ok (.goto addr, 5, input)

/-- `CondJmp::decode_and_wrap`: negative, null, then positive address. -/
def decodeAndWrapCondJmp (input : List Nat) :
    Except DecodingError (Instruction × Nat × List Nat) :=
  match pumpFour input with
  | .error e => .error e
  | .ok (negativeAddr, input) =>
    match pumpFour input with
    | .error e => .error e
    | .ok (nullAddr, input) =>
      match pumpFour input with
      | .error e => .error e
      | .ok (positiveAddr, input) =>
        .ok (.condJmp negativeAddr nullAddr positiveAddr, 13, input)

/-- `Neg::decode_and_wrap`. -/
def decodeAndWrapNeg (input : List Nat) :
    Except DecodingError (Instruction × Nat × List Nat) :=
  .ok (.neg, 1, input)

/-- `Mul::decode_and_wrap`. -/
def decodeAndWrapMul (input : List Nat) :
    Except DecodingError (Instruction × Nat × List Nat) :=
  .ok (.mul, 1, input)

/-- `Pop::decode_and_wrap`. -/
def decodeAndWrapPop (input : List Nat) :
    Except DecodingError (Instruction × Nat × List Nat) :=
  match pumpTwo input with
  | .error e => .error e
  | .ok (idx, input) => .ok (.pop idx, 3, input)

/-- `AVAILABLE_DECODERS` from `operations.rs`: the per-opcode decoder table,
indexed by opcode ID. -/
def availableDecoders :
    List (List Nat → Except DecodingError (Instruction × Nat × List Nat)) :=
  [decodeAndWrapPushI, decodeAndWrapAddI, decodeAndWrapFStop,
   decodeAndWrapPushCopy, decodeAndWrapCall, decodeAndWrapRet,
   decodeAndWrapResV, decodeAndWrapPopCopy, decodeAndWrapGoto,
   decodeAndWrapCondJmp, decodeAndWrapNeg, decodeAndWrapMul,
   decodeAndWrapPop]

/-- Modelled from the spec: the top-level `Instruction::decode`
dispatcher is absent from `src/` (the `decode.rs` present is a stale
revision of a different instruction set).  Per §4.A of the spec it reads
one opcode byte (failing with `UnexpectedEof` on empty input), indexes
the `AVAILABLE_DECODERS` table with it (failing with `UnknownOpcode` when
out of range), and runs the per-opcode decoder on the remaining bytes. -/
def Instruction.decode (input : List Nat) :
    Except DecodingError (Instruction × Nat × List Nat) :=
  match pumpOne input with
  | .error e => .error e
  | .ok (op, input) =>
    match availableDecoders.get? op with
    | none => .error (.unknownOpcode op)
    | some d => d input

/-- Well-formedness of an instruction: every operand fits the Rust
integer type it is declared with (`i32`, `u16`, `u32`). -/
def wf : Instruction → Prop
  | .pushI v => -2147483648 ≤ v ∧ v < 2147483648
  | .addI => True
  | .fStop => True
  | .pushCopy i => i < 65536
  | .call p => p < 4294967296
  | .ret s ip => s < 65536 ∧ ip < 65536
  | .resV c => c < 65536
  | .popCopy i => i < 65536
  | .goto a => a < 4294967296
  | .condJmp n z p => n < 4294967296 ∧ z < 4294967296 ∧ p < 4294967296
  | .neg => True
  | .mul => True
  | .pop c => c < 65536

/-- `SIZE` of the opcode whose ID is the given byte (0‥12). -/
def sizeOfId : Nat → Nat
  | 0 => 5
  | 1 => 1
  | 2 => 1
  | 3 => 3
  | 4 => 5
  | 5 => 5
  | 6 => 3
  | 7 => 3
  | 8 => 5
  | 9 => 13
  | 10 => 1
  | 11 => 1
  | 12 => 3
  | _ => 0

end Bytecode

/-! ## Type domain (`dyl-compiler/src/ty.rs`) -/

/-- `Ty` from `ty.rs`. -/
inductive Ty
  | bool
  | int
  | err
  deriving Repr, DecidableEq

/-- `UnificationError` from `ty.rs`. -/
structure UnificationError where
  left : Ty
  right : Ty
  deriving Repr, DecidableEq

/-- `UnexpectedTypeError` from `ty.rs`. -/
structure UnexpectedTypeError where
  expected : Ty
  got : Ty
  deriving Repr, DecidableEq

namespace Ty

/-- `Ty::unify_with` from `ty.rs`. -/
def unify_with : Ty → Ty → Except UnificationError Ty
  | .err, .err => .ok .err
  | .err, other => .ok other
  | this, .err => .ok this
  | lhs, rhs =>
    if lhs = rhs then .ok lhs else .error ⟨lhs, rhs⟩

/-- `Ty::expect` from `ty.rs`. -/
def expect (self expected : Ty) : Except UnexpectedTypeError Unit :=
  if self = expected then .ok ()
  else match self with
    | .err => .ok ()
    | _ => .error ⟨expected, self⟩

/-- `Ty::expect_bool`. -/
def expect_bool (self : Ty) : Except UnexpectedTypeError Unit :=
  self.expect .bool

/-- `Ty::expect_int`. -/
def expect_int (self : Ty) : Except UnexpectedTypeError Unit :=
  self.expect .int

end Ty

/-! ## AST (`dyl-compiler/src/ast.rs`) -/

/-!
`ExprKind`, `Binding` and the binding list of `Bindings` from `ast.rs`.
The Rust `Bindings` node owns a `Vec<Binding>`; it is represented here by
the isomorphic mutual inductive `BindingList` so that all recursion over
the AST stays structural (and hence kernel-computable).
-/
mutual

inductive ExprKind
  | addition (left right : ExprKind)
  | subtraction (left right : ExprKind)
  | multiplication (left right : ExprKind)
  | integer (value : Int)
  | if_ (condition consequent alternative : ExprKind)
  | bindings (defines : BindingList) (endingExpression : ExprKind)
  | ident (name : String)
  | bool_ (value : Bool)
  deriving Repr

inductive Binding
  | mk (name : String) (value : ExprKind)
  deriving Repr

inductive BindingList
  | nil
  | cons (head : Binding) (tail : BindingList)
  deriving Repr

end

/-- `Binding::name`. -/
def Binding.name : Binding → String
  | .mk n _ => n

/-- `Binding::value`. -/
def Binding.value : Binding → ExprKind
  | .mk _ v => v

/-- `Vec::len` of the `Bindings` vector (`self.defines().len()`). -/
def BindingList.length : BindingList → Nat
  | .nil => 0
  | .cons _ tail => tail.length + 1

/-- Conversion from the list the parser accumulates (`many1(binding)`). -/
def BindingList.ofList : List Binding → BindingList
  | [] => .nil
  | b :: rest => .cons b (BindingList.ofList rest)

/-- `Function` from `ast.rs`: a name and a body expression. -/
structure Function where
  name : String
  body : ExprKind
  deriving Repr

/-- `Program` from `ast.rs`: an ordered list of functions. -/
structure Program where
  functions : List Function
  deriving Repr

/-! ## Compile-time contexts (`dyl-compiler/src/context.rs`) -/

/-- `AnonymousNamingError` from `context.rs`. -/
inductive AnonymousNamingError
  | noTopVariable
  | notAnonymous
  deriving Repr, DecidableEq

/-- `AnonymousPoppingError` from `context.rs`. -/
inductive AnonymousPoppingError
  | emptyStack
  | notAnonymous
  deriving Repr, DecidableEq

/-- `LabelDefinitionError` from `context.rs`. -/
inductive LabelDefinitionError
  | alreadyDefined (addr : Nat)
  | unknownLabel
  deriving Repr, DecidableEq

/-- `LabelResolutionError` from `context.rs`. -/
inductive LabelResolutionError
  | unknownLabel
  | unknownLabelPosition
  deriving Repr, DecidableEq

/-- `StackContext` from `context.rs`: a `Vec<String>` of slot names, where
the empty string is an anonymous slot.  The Rust vector keeps its top as
the last element; it is represented here reversed, top first, so that
`push` is `::`. -/
abbrev StackContext := List String

namespace StackContext

/-- `StackContext::push_anonymous`. -/
def push_anonymous (s : StackContext) : StackContext :=
  "" :: s

/-- `StackContext::name_top_anonymous`. -/
def name_top_anonymous (s : StackContext) (name : String) :
    Except AnonymousNamingError StackContext :=
  match s with
  | [] => .error .noTopVariable
  | top :: rest =>
    if top = "" then .ok (name :: rest) else .error .notAnonymous

/-- `StackContext::resolve`: scan from the top
(`iter().rev().enumerate().find_map(..)`), returning the depth-from-top of
the first slot carrying `name`, cast `depth as u16`. -/
def resolve (s : StackContext) (name : String) : Option Nat :=
  go s 0
where
  go : List String → Nat → Option Nat
    | [], _ => none
    | varName :: rest, depth =>
      if varName = name then some (depth % 65536) else go rest (depth + 1)

/-- `StackContext::new_subcontext`: the current depth, used as a marker. -/
def new_subcontext (s : StackContext) : Nat :=
  s.length

/-- `StackContext::drop_subcontext`: `Vec::truncate(new_top)`, keeping the
bottom `new_top` slots (a no-op when `new_top` exceeds the depth). -/
def drop_subcontext (s : StackContext) (newTop : Nat) : StackContext :=
  s.drop (s.length - newTop)

/-- `StackContext::pop_top_anonymous`. -/
def pop_top_anonymous (s : StackContext) :
    Except AnonymousPoppingError StackContext :=
  match s with
  | [] => .error .emptyStack
  | top :: rest =>
    if top = "" then .ok rest else .error .notAnonymous

end StackContext

/-- `LabelContext` from `context.rs` (`Vec<Option<u32>>` of anonymous
labels), extended with the named labels of the newer revision.
The `named` field is modelled from the spec: §4.D gives the label context
a `new_named(name, pos)` operation recording function entry points, used
by `Function::lower` in `lowering.rs`. -/
structure LabelContext where
  anonymous : List (Option Nat)
  named : List (String × Nat)
  deriving Repr, DecidableEq

namespace LabelContext

/-- `LabelContext::new_anonymous`: appends an unset slot, returning its
index as the new label ID. -/
def new_anonymous (ctxt : LabelContext) : Nat × LabelContext :=
  (ctxt.anonymous.length, { ctxt with anonymous := ctxt.anonymous ++ [none] })

/-- `LabelContext::set_position`. -/
def set_position (ctxt : LabelContext) (labelId pos : Nat) :
    Except LabelDefinitionError LabelContext :=
  match ctxt.anonymous.get? labelId with
  | some none => .ok { ctxt with anonymous := ctxt.anonymous.set labelId (some pos) }
  | none => .error .unknownLabel
  | some (some addr) => .error (.alreadyDefined addr)

/-- `LabelContext::resolve`. -/
def resolve (ctxt : LabelContext) (labelId : Nat) :
    Except LabelResolutionError Nat :=
  match ctxt.anonymous.get? labelId with
  | none => .error .unknownLabel
  | some none => .error .unknownLabelPosition
  | some (some pos) => .ok pos

/-- Modelled from the spec: `new_named(name, pos)` records a function
entry point (§4.D); absent from the stale `context.rs`, called by
`Function::lower` in `lowering.rs`. -/
def new_named (ctxt : LabelContext) (name : String) (pos : Nat) :
    LabelContext :=
  { ctxt with named := ctxt.named ++ [(name, pos)] }

end LabelContext

/-- `LoweringContext` from `context.rs`: label context, stack context and
the shared error channel (`ErrorContext`, a list of `CompilationError`
message strings in insertion order). -/
structure LoweringContext where
  labels : LabelContext
  stack : StackContext
  errs : List String
  deriving Repr, DecidableEq

/-- `LoweringContext::new` / `Default`. -/
def LoweringContext.new : LoweringContext :=
  { labels := { anonymous := [], named := [] }, stack := [], errs := [] }

/-! ## Unresolved instructions (`dyl-compiler/src/instruction.rs`) -/

namespace Compiler

/-- The compiler-side `Instruction` from `instruction.rs`, whose `CondJmp`
and `Goto` operands are label IDs.  The `ret` variant is modelled from the
spec: `Instruction::ret()` is used by `Function::lower` in `lowering.rs`
but its definition is absent from the stale `instruction.rs`; per §4.D a
function ends with `pop_copy 1; ret 0 0`, so `ret` carries no operands and
resolves to `Ret { shrink_offset: 0, ip_offset: 0 }`. -/
inductive Instruction
  | pushI (val : Int)
  | addI
  | mul
  | fStop
  | neg
  | condJmp (negative null positive : Nat)
  | goto (addr : Nat)
  | popCopy (offset : Nat)
  | pop (offset : Nat)
  | pushCopy (offset : Nat)
  | ret
  deriving Repr, DecidableEq

/-- `Resolvable::resolve` from `instruction.rs`: map an unresolved
instruction to a bytecode instruction, looking label IDs up in the label
context.  The `expect` panics on unresolved labels are modelled by
`Option`. -/
def Instruction.resolve (ctxt : LoweringContext) :
    Instruction → Option Bytecode.Instruction
  | .pushI v => some (.pushI v)
  | .addI => some .addI
  | .mul => some .mul
  | .fStop => some .fStop
  | .neg => some .neg
  | .condJmp n z p =>
    match ctxt.labels.resolve n, ctxt.labels.resolve z, ctxt.labels.resolve p with
    | .ok n', .ok z', .ok p' => some (.condJmp n' z' p')
    | _, _, _ => none
  | .goto a =>
    match ctxt.labels.resolve a with
    | .ok a' => some (.goto a')
    | .error _ => none
  | .popCopy o => some (.popCopy o)
  | .pop o => some (.pop o)
  | .pushCopy o => some (.pushCopy o)
  | .ret => some (.ret 0 0)

end Compiler

/-- `resolve_context` from `context.rs`: resolve every instruction of the
lowered list against the final lowering context. -/
def resolve_context (instructions : List Compiler.Instruction)
    (ctxt : LoweringContext) : Option (List Bytecode.Instruction) :=
  instructions.mapM (Compiler.Instruction.resolve ctxt)

/-! ## Lowering (`dyl-compiler/src/lowering.rs`)

`Lowerable::lower` threads a `&mut Vec<Instruction>` collector and a
`&mut LoweringContext`; both are passed and returned explicitly.  The
returned `Bool` is the `LoweringResult` (`true` for `Ok(())`, `false` for
`Err(())`).  The `.unwrap()` calls on stack/label operations are modelled
by the outer `Option`: `none` is a Rust panic. -/

mutual

/-- `ExprKind::lower` and the per-node `Lowerable` impls from
`lowering.rs`. -/
def lowerExpr : ExprKind → List Compiler.Instruction → LoweringContext →
    Option (Bool × List Compiler.Instruction × LoweringContext)
  | .addition l r, collector, ctxt =>
    match lowerExpr l collector ctxt with
    | none => none
    | some (leftExp, collector, ctxt) =>
      match lowerExpr r collector ctxt with
      | none => none
      | some (rightExp, collector, ctxt) =>
        let collector := collector ++ [.addI]
        match ctxt.stack.pop_top_anonymous with
        | .error _ => none
        | .ok st => some (leftExp && rightExp, collector, { ctxt with stack := st })
  | .subtraction l r, collector, ctxt =>
    match lowerExpr l collector ctxt with
    | none => none
    | some (leftExp, collector, ctxt) =>
      match lowerExpr r collector ctxt with
      | none => none
      | some (rightExp, collector, ctxt) =>
        let collector := collector ++ [.neg, .addI]
        match ctxt.stack.pop_top_anonymous with
        | .error _ => none
        | .ok st => some (leftExp && rightExp, collector, { ctxt with stack := st })
  | .multiplication l r, collector, ctxt =>
    match lowerExpr l collector ctxt with
    | none => none
    | some (leftExp, collector, ctxt) =>
      match lowerExpr r collector ctxt with
      | none => none
      | some (rightExp, collector, ctxt) =>
        let collector := collector ++ [.mul]
        match ctxt.stack.pop_top_anonymous with
        | .error _ => none
        | .ok st => some (leftExp && rightExp, collector, { ctxt with stack := st })
  | .integer v, collector, ctxt =>
    some (true, collector ++ [.pushI v],
      { ctxt with stack := ctxt.stack.push_anonymous })
  | .if_ condition consequent alternative, collector, ctxt =>
    match lowerExpr condition collector ctxt with
    | none => none
    | some (conditionExp, collector, ctxt) =>
      let (consequentStart, labels) := ctxt.labels.new_anonymous
      let (altStart, labels) := labels.new_anonymous
      let (consequentEnd, labels) := labels.new_anonymous
      let ctxt := { ctxt with labels := labels }
      let collector :=
        collector ++ [.condJmp consequentStart altStart consequentStart]
      match ctxt.stack.pop_top_anonymous with
      | .error _ => none
      | .ok st =>
        let ctxt := { ctxt with stack := st }
        match ctxt.labels.set_position consequentStart collector.length with
        | .error _ => none
        | .ok labels =>
          let ctxt := { ctxt with labels := labels }
          let branchesSubcontext := ctxt.stack.new_subcontext
          match lowerExpr consequent collector ctxt with
          | none => none
          | some (consequentExp, collector, ctxt) =>
            let collector := collector ++ [.goto consequentEnd]
            let ctxt :=
              { ctxt with stack := ctxt.stack.drop_subcontext branchesSubcontext }
            match ctxt.labels.set_position altStart collector.length with
            | .error _ => none
            | .ok labels =>
              let ctxt := { ctxt with labels := labels }
              match lowerExpr alternative collector ctxt with
              | none => none
              | some (alternativeExp, collector, ctxt) =>
                let ctxt :=
                  { ctxt with
                    stack :=
                      (ctxt.stack.drop_subcontext
                        branchesSubcontext).push_anonymous }
                match ctxt.labels.set_position consequentEnd collector.length with
                | .error _ => none
                | .ok labels =>
                  some (conditionExp && consequentExp && alternativeExp,
                    collector, { ctxt with labels := labels })
  | .bindings defines endingExpression, collector, ctxt =>
    let subcontextId := ctxt.stack.new_subcontext
    match lowerBindingList defines collector ctxt with
    | none => none
    | some (definesExp, collector, ctxt) =>
      match lowerExpr endingExpression collector ctxt with
      | none => none
      | some (endingExp, collector, ctxt) =>
        let len := defines.length % 65536
        let collector :=
          collector ++ [.popCopy len, .pop ((len + 65535) % 65536)]
        let ctxt :=
          { ctxt with
            stack := (ctxt.stack.drop_subcontext subcontextId).push_anonymous }
        some (definesExp && endingExp, collector, ctxt)
  | .ident name, collector, ctxt =>
    match ctxt.stack.resolve name with
    | some stackOffset =>
      some (true, collector ++ [.pushCopy stackOffset],
        { ctxt with stack := ctxt.stack.push_anonymous })
    | none =>
      some (false, collector,
        { ctxt with
          errs := ctxt.errs ++ ["Undefined variable `" ++ name ++ "`"],
          stack := ctxt.stack.push_anonymous })
  | .bool_ b, collector, ctxt =>
    some (true, collector ++ [.pushI (if b then 1 else 0)],
      { ctxt with stack := ctxt.stack.push_anonymous })

/-- The `defines().iter().map(lower).fold(Ok(()), Result::and)` loop of
`Bindings::lower`. -/
def lowerBindingList : BindingList → List Compiler.Instruction →
    LoweringContext →
    Option (Bool × List Compiler.Instruction × LoweringContext)
  | .nil, collector, ctxt => some (true, collector, ctxt)
  | .cons b tail, collector, ctxt =>
    match lowerBinding b collector ctxt with
    | none => none
    | some (bindingExp, collector, ctxt) =>
      match lowerBindingList tail collector ctxt with
      | none => none
      | some (tailExp, collector, ctxt) =>
        some (bindingExp && tailExp, collector, ctxt)

/-- `Binding::lower`. -/
def lowerBinding : Binding → List Compiler.Instruction → LoweringContext →
    Option (Bool × List Compiler.Instruction × LoweringContext)
  | .mk name value, collector, ctxt =>
    match lowerExpr value collector ctxt with
    | none => none
    | some (valueExp, collector, ctxt) =>
      match ctxt.stack.name_top_anonymous name with
      | .error _ => none
      | .ok st => some (valueExp, collector, { ctxt with stack := st })

end

/-- `Function::lower`: record a named label at the current collector
length, lower the body (early-returning its `Err` via `?`), then append
`pop_copy 1; ret`. -/
def lowerFunction (f : Function) (collector : List Compiler.Instruction)
    (ctxt : LoweringContext) :
    Option (Bool × List Compiler.Instruction × LoweringContext) :=
  let ctxt := { ctxt with labels := ctxt.labels.new_named f.name collector.length }
  match lowerExpr f.body collector ctxt with
  | none => none
  | some (bodyExp, collector, ctxt) =>
    if bodyExp then some (true, collector ++ [.popCopy 1, .ret], ctxt)
    else some (false, collector, ctxt)

/-- The `functions.iter().filter(...).map(lower).fold(Ok(()), Result::and)`
loop of `Program::lower` over the non-`main` functions. -/
def lowerFunctionList (fs : List Function)
    (collector : List Compiler.Instruction) (ctxt : LoweringContext) :
    Option (Bool × List Compiler.Instruction × LoweringContext) :=
  match fs with
  | [] => some (true, collector, ctxt)
  | f :: rest =>
    match lowerFunction f collector ctxt with
    | none => none
    | some (fExp, collector, ctxt) =>
      match lowerFunctionList rest collector ctxt with
      | none => none
      | some (restExp, collector, ctxt) => some (fExp && restExp, collector, ctxt)

/-- `Program::lower`: lower `main` first so execution starts at offset 0,
strip its trailing `pop_copy 1; ret` and append `f_stop`, then lower the
remaining functions. -/
def lowerProgram (p : Program) (collector : List Compiler.Instruction)
    (ctxt : LoweringContext) :
    Option (Bool × List Compiler.Instruction × LoweringContext) :=
  let mainFnData := p.functions.find? (fun f => f.name = "main")
  let ctxt :=
    if mainFnData.isNone then
      { ctxt with errs := ctxt.errs ++ ["No `main` function found"] }
    else ctxt
  match mainFnData with
  | none =>
    match lowerFunctionList p.functions collector ctxt with
    | none => none
    | some (_, collector, ctxt) => some (false, collector, ctxt)
  | some mainFn =>
    match lowerFunction mainFn collector ctxt with
    | none => none
    | some (mainExp, collector, ctxt) =>
      let collector :=
        if mainExp then collector.take (collector.length - 2) ++ [.fStop]
        else collector
      match lowerFunctionList (p.functions.filter (fun f => ¬ f.name = "main"))
          collector ctxt with
      | none => none
      | some (restExp, collector, ctxt) =>
        some (restExp && mainExp, collector, ctxt)

/-- `lower_ast` from `lowering.rs`: run `Program::lower` on an empty
collector, then `LoweringContext::wrap_result`
(`ErrorContext::emit_possible_errors`): succeed iff the lowering result is
`Ok` and the error list is empty, otherwise fail with
`CompilerPassError(len)`. -/
def lower_ast (p : Program) (ctxt : LoweringContext) :
    Option (Except Nat (LoweringContext × List Compiler.Instruction)) :=
  match lowerProgram p [] ctxt with
  | none => none
  | some (rslt, collector, ctxt) =>
    if rslt ∧ ctxt.errs = [] then some (.ok (ctxt, collector))
    else some (.error ctxt.errs.length)

/-! ## Stack virtual machine (`dyl-vm`)

The per-instruction semantics follow `runnable.rs` (the `Runnable` impls);
the `Stack` methods and the fetch/dispatch loop follow `interpreter.rs`
(`Stack`, `Interpreter::run`, `Interpreter::run_single`).  `usize`
subtraction, which the stack index computations can underflow, is modelled
with release-build wrapping semantics (`wrapSub`, mod `2^64`); `i32`
arithmetic wraps via `wrap32`. -/

namespace Vm

/-- `Value` from `value.rs`. -/
inductive Value
  | integer (val : Int)
  | char (c : Char)
  | instructionPointer (ip : Nat)
  deriving Repr, DecidableEq

/-- `Type` from `value.rs`. -/
inductive ValueType
  | integer
  | char
  | instructionPointer
  deriving Repr, DecidableEq

/-- The runtime error taxonomy: one constructor per distinct error the
interpreter can return (`value.rs` `ValueConversionError` and the
`anyhow` messages of `interpreter.rs`). -/
inductive RuntimeError
  | outOfBoundStackAccess
  | emptyStack
  | typeMismatch (expected : ValueType) (found : Value)
  | emptyStackAtEnd
  | stackNotSingleton
  | instructionFetch (index : Nat)
  deriving Repr, DecidableEq

/-- Wrapping `usize` subtraction (release-build semantics). -/
def wrapSub (a b : Nat) : Nat :=
  (a + 18446744073709551616 - b) % 18446744073709551616

/-- Wrapping `i32` arithmetic. -/
def wrap32 (x : Int) : Int :=
  (x + 2147483648) % 4294967296 - 2147483648

/-- The runtime `Stack` (`Vec<Value>`), bottom first as in the Rust
vector. -/
abbrev Stack := List Value

namespace Stack

/-- `Stack::push_value` / `push_integer` / `push_instruction_pointer`. -/
def push_value (s : Stack) (v : Value) : Stack :=
  s ++ [v]

/-- `Stack::pop`. -/
def pop (s : Stack) : Except RuntimeError (Value × Stack) :=
  match s.getLast? with
  | none => .error .emptyStack
  | some v => .ok (v, s.dropLast)

/-- `Value::try_into_integer` from `value.rs`. -/
def try_into_integer (v : Value) : Except RuntimeError Int :=
  match v with
  | .integer val => .ok val
  | anything => .error (.typeMismatch .integer anything)

/-- `Value::try_into_instruction_pointer` from `value.rs`. -/
def try_into_instruction_pointer (v : Value) : Except RuntimeError Nat :=
  match v with
  | .instructionPointer ip => .ok ip
  | anything => .error (.typeMismatch .instructionPointer anything)

/-- `Stack::pop_integer`. -/
def pop_integer (s : Stack) : Except RuntimeError (Int × Stack) :=
  match pop s with
  | .error e => .error e
  | .ok (v, s) =>
    match try_into_integer v with
    | .error e => .error e
    | .ok n => .ok (n, s)

/-- `Stack::copy_value`: clone the slot at depth `idx` from the top and
push it (`self.0.len() - 1 - idx` computed in `usize`). -/
def copy_value (s : Stack) (idx : Nat) : Except RuntimeError Stack :=
  if s.length = 0 then .error .outOfBoundStackAccess
  else
    match s.get? (wrapSub (wrapSub s.length 1) idx) with
    | some v => .ok (s ++ [v])
    | none => .error .outOfBoundStackAccess

/-- `Stack::get_at_offset`. -/
def get_at_offset (s : Stack) (idx : Nat) : Except RuntimeError Value :=
  if s.length = 0 then .error .outOfBoundStackAccess
  else
    match s.get? (wrapSub (wrapSub s.length 1) idx) with
    | some v => .ok v
    | none => .error .outOfBoundStackAccess

/-- `Stack::get_instruction_pointer_at_offset`. -/
def get_instruction_pointer_at_offset (s : Stack) (idx : Nat) :
    Except RuntimeError Nat :=
  match get_at_offset s idx with
  | .error e => .error e
  | .ok v => try_into_instruction_pointer v

/-- `Stack::truncate`: `Vec::truncate(self.0.len() - idx)`; note that when
the wrapped subtraction exceeds the length, `Vec::truncate` keeps the
whole vector. -/
def truncate (s : Stack) (idx : Nat) : Except RuntimeError Stack :=
  if s.length = 0 then .error .outOfBoundStackAccess
  else .ok (s.take (wrapSub s.length idx))

/-- `Stack::replace`: overwrite the slot at `self.0.len() - offset`. -/
def replace (s : Stack) (offset : Nat) (v : Value) :
    Except RuntimeError Stack :=
  let idx := wrapSub s.length offset
  if idx < s.length then .ok (s.set idx v)
  else .error .outOfBoundStackAccess

/-- `Stack::full_stop_value`. -/
def full_stop_value (s : Stack) : Except RuntimeError Value :=
  match s with
  | [uniqueValue] => .ok uniqueValue
  | [] => .error .emptyStackAtEnd
  | _ => .error .stackNotSingleton

end Stack

/-- `RunningInterpreterState`: the runtime stack and the instruction
pointer (`InterpreterState::Running`). -/
structure RunningInterpreterState where
  stack : Stack
  ip : Nat
  deriving Repr, DecidableEq

/-- `RunStatus` from `runnable.rs`. -/
inductive RunStatus
  | cont (state : RunningInterpreterState)
  | stop (value : Value)
  deriving Repr, DecidableEq

/-- The `Runnable` impls of `runnable.rs`, one arm per instruction.
`state.continue_to_next()` is `ip + 1`; `state.continue_to(addr)` replaces
the instruction pointer.  The `Mul` and `Pop` arms are modelled from the
spec: `runnable.rs` in `src/` predates them, and §4.E specifies
`mul` as pop two integers and push their wrapping product, and `pop k` as
drop `k` slots with precondition depth ≥ `k` (an out-of-range count being
an out-of-bound stack access per the same section). -/
def runInstruction (i : Bytecode.Instruction)
    (state : RunningInterpreterState) : Except RuntimeError RunStatus :=
  match i with
  | .pushI n =>
    .ok (.cont
      { state with
        stack := state.stack.push_value (.integer n),
        ip := state.ip + 1 })
  | .addI =>
    match state.stack.pop_integer with
    | .error e => .error e
    | .ok (lhs, s) =>
      match Stack.pop_integer s with
      | .error e => .error e
      | .ok (rhs, s) =>
        .ok (.cont
          { state with
            stack := s.push_value (.integer (wrap32 (lhs + rhs))),
            ip := state.ip + 1 })
  | .fStop =>
    match state.stack.full_stop_value with
    | .error e => .error e
    | .ok v => .ok (.stop v)
  | .pushCopy idx =>
    match state.stack.copy_value idx with
    | .error e => .error e
    | .ok s => .ok (.cont { state with stack := s, ip := state.ip + 1 })
  | .call ptr =>
    .ok (.cont
      { state with
        stack := state.stack.push_value (.instructionPointer (state.ip + 1)),
        ip := ptr })
  | .ret shrinkOffset ipOffset =>
    match state.stack.get_instruction_pointer_at_offset ipOffset with
    | .error e => .error e
    | .ok initialOffset =>
      match state.stack.truncate shrinkOffset with
      | .error e => .error e
      | .ok s => .ok (.cont { state with stack := s, ip := initialOffset })
  | .resV count =>
    .ok (.cont
      { state with
        stack := state.stack ++ List.replicate count (.integer 0),
        ip := state.ip + 1 })
  | .popCopy offset =>
    match state.stack.pop with
    | .error e => .error e
    | .ok (v, s) =>
      match s.replace offset v with
      | .error e => .error e
      | .ok s => .ok (.cont { state with stack := s, ip := state.ip + 1 })
  | .goto addr => .ok (.cont { state with ip := addr })
  | .condJmp negativeAddr nullAddr positiveAddr =>
    match state.stack.pop_integer with
    | .error e => .error e
    | .ok (i, s) =>
      let dest :=
        if i < 0 then negativeAddr
        else if i = 0 then nullAddr
        else positiveAddr
      .ok (.cont { state with stack := s, ip := dest })
  | .neg =>
    match state.stack.pop_integer with
    | .error e => .error e
    | .ok (i, s) =>
      .ok (.cont
        { state with
          stack := s.push_value (.integer (wrap32 (-i))),
          ip := state.ip + 1 })
  | .mul =>
    match state.stack.pop_integer with
    | .error e => .error e
    | .ok (lhs, s) =>
      match Stack.pop_integer s with
      | .error e => .error e
      | .ok (rhs, s) =>
        .ok (.cont
          { state with
            stack := s.push_value (.integer (wrap32 (lhs * rhs))),
            ip := state.ip + 1 })
  | .pop count =>
    if count ≤ state.stack.length then
      .ok (.cont
        { state with
          stack := state.stack.take (state.stack.length - count),
          ip := state.ip + 1 })
    else .error .outOfBoundStackAccess

/-- `Interpreter::run_single`: fetch the instruction at the instruction
pointer, failing with an error naming the index when it is outside the
instruction list, then execute it. -/
def run_single (code : List Bytecode.Instruction)
    (state : RunningInterpreterState) : Except RuntimeError RunStatus :=
  match code.get? state.ip with
  | none => .error (.instructionFetch state.ip)
  | some instr => runInstruction instr state

/-- `Interpreter::run`: step until `Stop` or an error; the loop is given
explicit fuel (`none` = fuel exhausted, never reached by the theorems
below on their inputs). -/
def run (fuel : Nat) (code : List Bytecode.Instruction)
    (state : RunningInterpreterState) :
    Option (Except RuntimeError Value) :=
  match fuel with
  | 0 => none
  | fuel + 1 =>
    match run_single code state with
    | .error e => some (.error e)
    | .ok (.stop v) => some (.ok v)
    | .ok (.cont st) => run fuel code st

end Vm

/-! ## Parser (`dyl-compiler/src/parser.rs`)

The parser is `nom`-style recursive descent over `LocatedSpan` input.
`Input` carries the remaining characters and the 1-based line/column of
its start (`location_line` / `get_utf8_column`).  A parser takes the input
and the shared `ParsingContext` error list and returns either the
remaining input with the parsed value, or a failure carrying the input at
the failure position (`nom::error::Error { input, .. }`; the error kind is
never inspected).  `crash` models a Rust panic (the `i32` parse
`unwrap`).  The mutually recursive grammar rules are built as a
fuel-indexed family `mkParsers`: every rule at fuel `f + 1` invokes rules
at fuel `f`, and running out of fuel is a parse failure; since every cycle
of the grammar consumes at least one character within at most 8 calls,
`parse_input`'s fuel of `8 * (length + 2)` behaves as the untruncated
parser. -/

namespace Parser

/-- `LocatedSpan`: remaining input with the position of its first
character. -/
structure Input where
  src : List Char
  line : Nat
  col : Nat
  deriving Repr, DecidableEq

/-- A parse failure: `err` carries the `nom` error's input; `crash` is a
Rust panic. -/
inductive PFail
  | err (input : Input)
  | crash
  deriving Repr, DecidableEq

/-- Parsers over the shared `ParsingContext` error list. -/
def ParserFn (α : Type) : Type :=
  Input → List String → (Except PFail (Input × α)) × List String

/-- Step the position over one character. -/
def advance1 (i : Input) : Input :=
  match i.src with
  | [] => i
  | ch :: rest =>
    if ch = '\n' then { src := rest, line := i.line + 1, col := 1 }
    else { src := rest, line := i.line, col := i.col + 1 }

/-- Step the position over `n` characters. -/
def advanceBy (i : Input) : Nat → Input
  | 0 => i
  | n + 1 => advanceBy (advance1 i) n

/-- Characters matched by `multispace0` (space, tab, carriage return,
line feed). -/
def isSpaceChar (ch : Char) : Prop :=
  ch.toNat = 32 ∨ ch.toNat = 9 ∨ ch.toNat = 13 ∨ ch.toNat = 10

instance (ch : Char) : Decidable (isSpaceChar ch) := by
  unfold isSpaceChar
  infer_instance

/-- ASCII digits (`digit1`). -/
def isDigitChar (ch : Char) : Prop :=
  48 ≤ ch.toNat ∧ ch.toNat ≤ 57

instance (ch : Char) : Decidable (isDigitChar ch) := by
  unfold isDigitChar
  infer_instance

/-- Alphabetic characters (`alpha1`, `char::is_alphabetic`; the sources
are ASCII). -/
def isAlphaChar (ch : Char) : Prop :=
  (97 ≤ ch.toNat ∧ ch.toNat ≤ 122) ∨ (65 ≤ ch.toNat ∧ ch.toNat ≤ 90)

instance (ch : Char) : Decidable (isAlphaChar ch) := by
  unfold isAlphaChar
  infer_instance

/-- `map`. -/
def pmap (f : α → β) (p : ParserFn α) : ParserFn β := fun i c =>
  match p i c with
  | (.ok (t, a), c) => (.ok (t, f a), c)
  | (.error e, c) => (.error e, c)

/-- `alt` over two alternatives (longer `alt`s are nested). -/
def alt2 (p q : ParserFn α) : ParserFn α := fun i c =>
  match p i c with
  | (.ok r, c) => (.ok r, c)
  | (.error (.err _), c) => q i c
  | (.error .crash, c) => (.error .crash, c)

def alt3 (p q r : ParserFn α) : ParserFn α :=
  alt2 p (alt2 q r)

def alt5 (p q r u v : ParserFn α) : ParserFn α :=
  alt2 p (alt2 q (alt2 r (alt2 u v)))

/-- `opt`. -/
def popt (p : ParserFn α) : ParserFn (Option α) := fun i c =>
  match p i c with
  | (.ok (t, a), c) => (.ok (t, some a), c)
  | (.error (.err _), c) => (.ok (i, none), c)
  | (.error .crash, c) => (.error .crash, c)

/-- `pair` / `tuple`. -/
def pairP (p : ParserFn α) (q : ParserFn β) : ParserFn (α × β) := fun i c =>
  match p i c with
  | (.error e, c) => (.error e, c)
  | (.ok (t, a), c) =>
    match q t c with
    | (.error e, c) => (.error e, c)
    | (.ok (t, b), c) => (.ok (t, (a, b)), c)

/-- `preceded`. -/
def preceded (p : ParserFn α) (q : ParserFn β) : ParserFn β :=
  pmap Prod.snd (pairP p q)

/-- `terminated`. -/
def terminated (p : ParserFn α) (q : ParserFn β) : ParserFn α :=
  pmap Prod.fst (pairP p q)

/-- `delimited`. -/
def delimitedP (p : ParserFn α) (q : ParserFn β) (r : ParserFn γ) :
    ParserFn β :=
  preceded p (terminated q r)

/-- `recognize`: run the parser and return the consumed fragment. -/
def recognize (p : ParserFn α) : ParserFn String := fun i c =>
  match p i c with
  | (.ok (t, _), c) =>
    (.ok (t, String.mk (i.src.take (i.src.length - t.src.length))), c)
  | (.error e, c) => (.error e, c)

/-- `all_consuming`. -/
def all_consuming (p : ParserFn α) : ParserFn α := fun i c =>
  match p i c with
  | (.ok (t, a), c) =>
    if t.src = [] then (.ok (t, a), c) else (.error (.err t), c)
  | (.error e, c) => (.error e, c)

/-- The space-skipping core of `multispace0` (the `advance1` position
bookkeeping is inlined to keep the recursion structural). -/
def skipSpaces (i : Input) : Input :=
  go i.src i.line i.col
where
  go : List Char → Nat → Nat → Input
    | [], l, c => { src := [], line := l, col := c }
    | ch :: rest, l, c =>
      if isSpaceChar ch then
        if ch = '\n' then go rest (l + 1) 1 else go rest l (c + 1)
      else { src := ch :: rest, line := l, col := c }

/-- `multispace0` (never fails). -/
def multispace0 : ParserFn Unit := fun i c =>
  (.ok (skipSpaces i, ()), c)

/-- `tag`. -/
def tag (t : String) : ParserFn String := fun i c =>
  if t.data.isPrefixOf i.src then (.ok (advanceBy i t.data.length, t), c)
  else (.error (.err i), c)

/-- `digit1`. -/
def digit1 : ParserFn String := fun i c =>
  let ds := i.src.takeWhile (fun ch => decide (isDigitChar ch))
  if ds = [] then (.error (.err i), c)
  else (.ok (advanceBy i ds.length, String.mk ds), c)

/-- `alpha1`. -/
def alpha1 : ParserFn String := fun i c =>
  let ds := i.src.takeWhile (fun ch => decide (isAlphaChar ch))
  if ds = [] then (.error (.err i), c)
  else (.ok (advanceBy i ds.length, String.mk ds), c)

/-- `alphanumeric1`. -/
def alphanumeric1 : ParserFn String := fun i c =>
  let ds := i.src.takeWhile
    (fun ch => decide (isAlphaChar ch ∨ isDigitChar ch))
  if ds = [] then (.error (.err i), c)
  else (.ok (advanceBy i ds.length, String.mk ds), c)

/-- `space_insignificant`. -/
def space_insignificant (p : ParserFn α) : ParserFn α :=
  delimitedP multispace0 p multispace0

/-- `many0` (fuelled by the input length; an iteration that consumes
nothing is `nom`'s infinite-loop error). -/
def many0Go (p : ParserFn α) :
    Nat → Input → List String → (Except PFail (Input × List α)) × List String
  | 0, i, c => (.error (.err i), c)
  | fuel + 1, i, c =>
    match p i c with
    | (.error (.err _), c) => (.ok (i, []), c)
    | (.error .crash, c) => (.error .crash, c)
    | (.ok (t, a), c) =>
      if t.src.length = i.src.length then (.error (.err i), c)
      else
        match many0Go p fuel t c with
        | (.ok (t2, as), c) => (.ok (t2, a :: as), c)
        | (.error e, c) => (.error e, c)

def many0 (p : ParserFn α) : ParserFn (List α) := fun i c =>
  many0Go p (i.src.length + 1) i c

/-- `many1`. -/
def many1 (p : ParserFn α) : ParserFn (List α) := fun i c =>
  match p i c with
  | (.error e, c) => (.error e, c)
  | (.ok (t, a), c) =>
    if t.src.length = i.src.length then (.error (.err i), c)
    else
      match many0Go p (t.src.length + 1) t c with
      | (.ok (t2, as), c) => (.ok (t2, a :: as), c)
      | (.error e, c) => (.error e, c)

/-- `fold_many1`. -/
def foldGo (p : ParserFn α) (f : β → α → β) :
    β → Nat → Input → List String →
    (Except PFail (Input × β)) × List String
  | _, 0, i, c => (.error (.err i), c)
  | acc, fuel + 1, i, c =>
    match p i c with
    | (.error (.err _), c) => (.ok (i, acc), c)
    | (.error .crash, c) => (.error .crash, c)
    | (.ok (t, a), c) =>
      if t.src.length = i.src.length then (.error (.err i), c)
      else foldGo p f (f acc a) fuel t c

def foldMany1 (p : ParserFn α) (init : β) (f : β → α → β) : ParserFn β :=
  fun i c =>
  match p i c with
  | (.error e, c) => (.error e, c)
  | (.ok (t, a), c) =>
    if t.src.length = i.src.length then (.error (.err i), c)
    else foldGo p f (f init a) (t.src.length + 1) t c

/-- `epsilon_recover`: record `LINE:COL: Excepted TOKEN` in the shared
error list and resume at the failure position. -/
def epsilon_recover (token : String) (input : Input) (c : List String) :
    Input × List String :=
  (input,
    c ++ [toString input.line ++ ":" ++ toString input.col ++
      ": Excepted " ++ token])

/-- `expect(parser, epsilon_recover(token))`. -/
def expect (p : ParserFn α) (token : String) : ParserFn (Option α) :=
  fun i c =>
  match p i c with
  | (.ok (t, a), c) => (.ok (t, some a), c)
  | (.error .crash, c) => (.error .crash, c)
  | (.error (.err errInput), c) =>
    let (tail, c) := epsilon_recover token errInput c
    (.ok (tail, none), c)

/-- `keyword`: the keyword, not followed by an alphabetic character
(failing at the original input), then trailing whitespace. -/
def keyword (kw : String) : ParserFn Unit := fun i c =>
  match (preceded multispace0 (tag kw)) i c with
  | (.error e, c) => (.error e, c)
  | (.ok (t, _), c) =>
    let nextIsAlphabetic :=
      match t.src with
      | ch :: _ => decide (isAlphaChar ch)
      | [] => false
    if nextIsAlphabetic then (.error (.err i), c)
    else (.ok (skipSpaces t, ()), c)

/-- `parse::<i32>().unwrap()` on the recognized fragment: `none` is the
out-of-range panic. -/
def parseI32 (frag : String) : Option Int :=
  let (negative, digits) :=
    match frag.data with
    | '-' :: rest => (true, rest)
    | other => (false, other)
  let v : Nat := digits.foldl (fun acc ch => acc * 10 + (ch.toNat - 48)) 0
  let n : Int := if negative then -(v : Int) else (v : Int)
  if -2147483648 ≤ n ∧ n < 2147483648 then some n else none

/-- `integer`. -/
def integer : ParserFn ExprKind := fun i c =>
  match space_insignificant
      (recognize (pairP (popt (tag "-")) digit1)) i c with
  | (.error e, c) => (.error e, c)
  | (.ok (t, frag), c) =>
    match parseI32 frag with
    | some n => (.ok (t, ExprKind.integer n), c)
    | none => (.error .crash, c)

/-- `ident` (the identifier lexer). -/
def ident : ParserFn String :=
  space_insignificant
    (recognize (pairP (alt2 alpha1 (tag "_"))
      (many0 (alt2 alphanumeric1 (tag "_")))))

/-- `ident_expr`. -/
def ident_expr : ParserFn ExprKind :=
  pmap ExprKind.ident ident

/-- `true_` / `false_` / `bool_expr`. -/
def true_expr : ParserFn ExprKind :=
  pmap (fun _ => ExprKind.bool_ true) (keyword "true")

def false_expr : ParserFn ExprKind :=
  pmap (fun _ => ExprKind.bool_ false) (keyword "false")

def bool_expr : ParserFn ExprKind :=
  alt2 true_expr false_expr

/-- The token parsers. -/
def if_ : ParserFn Unit := keyword "if"

def else_ : ParserFn Unit := keyword "else"

def let_ : ParserFn Unit := keyword "let"

def equal : ParserFn Unit :=
  pmap (fun _ => ()) (space_insignificant (tag "="))

def semicolon : ParserFn Unit :=
  pmap (fun _ => ()) (space_insignificant (tag ";"))

def star : ParserFn Unit :=
  pmap (fun _ => ()) (space_insignificant (tag "*"))

def left_curly : ParserFn Unit :=
  pmap (fun _ => ()) (space_insignificant (tag "\x7b"))

def right_curly : ParserFn Unit :=
  pmap (fun _ => ()) (space_insignificant (tag "\x7d"))

def left_par : ParserFn Unit :=
  pmap (fun _ => ()) (space_insignificant (tag "("))

def right_par : ParserFn Unit :=
  pmap (fun _ => ()) (space_insignificant (tag ")"))

/-- `Level0Operator`. -/
inductive Level0Operator
  | plus
  | minus
  deriving Repr, DecidableEq

/-- `Level0Operator::make_expr`. -/
def Level0Operator.make_expr : Level0Operator → ExprKind → ExprKind → ExprKind
  | .plus, lhs, rhs => ExprKind.addition lhs rhs
  | .minus, lhs, rhs => ExprKind.subtraction lhs rhs

/-- `level_0_operator`. -/
def level_0_operator : ParserFn Level0Operator :=
  pmap (fun operator =>
    if operator = "+" then Level0Operator.plus else Level0Operator.minus)
    (alt2 (tag "+") (tag "-"))

/-- The mutually recursive grammar rules. -/
structure LangParsers where
  expr : ParserFn ExprKind
  level_0_expression : ParserFn ExprKind
  level_1_expression : ParserFn ExprKind
  atomic_expr : ParserFn ExprKind
  if_else : ParserFn ExprKind
  block : ParserFn ExprKind
  bindings : ParserFn ExprKind
  binding : ParserFn Binding

/-- Running out of fuel is a parse failure at the current input. -/
def failP : ParserFn α := fun i c => (.error (.err i), c)

/-- The grammar of `parser.rs`, one field per parser function. -/
def mkParsers : Nat → LangParsers
  | 0 =>
    { expr := failP, level_0_expression := failP,
      level_1_expression := failP, atomic_expr := failP, if_else := failP,
      block := failP, bindings := failP, binding := failP }
  | fuel + 1 =>
    let p := mkParsers fuel
    { expr := alt3 p.level_0_expression p.level_1_expression p.atomic_expr,
      level_0_expression := fun i c =>
        match (alt2 p.level_1_expression p.atomic_expr) i c with
        | (.error e, c) => (.error e, c)
        | (.ok (t, first), c) =>
          foldMany1
            (pairP level_0_operator
              (alt2 p.level_1_expression p.atomic_expr))
            first
            (fun left (x : Level0Operator × ExprKind) =>
              x.1.make_expr left x.2) t c,
      level_1_expression := fun i c =>
        match p.atomic_expr i c with
        | (.error e, c) => (.error e, c)
        | (.ok (t, first), c) =>
          foldMany1 (pairP star p.atomic_expr) first
            (fun lhs (x : Unit × ExprKind) =>
              ExprKind.multiplication lhs x.2) t c,
      atomic_expr := alt5 integer p.if_else p.block bool_expr ident_expr,
      if_else := fun i c =>
        match if_ i c with
        | (.error e, c) => (.error e, c)
        | (.ok (t, _), c) =>
          match p.expr t c with
          | (.error e, c) => (.error e, c)
          | (.ok (t, condition), c) =>
            match p.block t c with
            | (.error e, c) => (.error e, c)
            | (.ok (t, consequent), c) =>
              match else_ t c with
              | (.error e, c) => (.error e, c)
              | (.ok (t, _), c) =>
                match p.block t c with
                | (.error e, c) => (.error e, c)
                | (.ok (t, alternative), c) =>
                  (.ok (t, ExprKind.if_ condition consequent alternative), c),
      block := delimitedP left_curly (alt2 p.bindings p.expr) right_curly,
      bindings := fun i c =>
        match many1 p.binding i c with
        | (.error e, c) => (.error e, c)
        | (.ok (t, bs), c) =>
          match p.expr t c with
          | (.error e, c) => (.error e, c)
          | (.ok (t, ending), c) =>
            (.ok (t, ExprKind.bindings (BindingList.ofList bs) ending), c),
      binding := fun i c =>
        match (delimitedP let_ ident (expect equal "`=`")) i c with
        | (.error e, c) => (.error e, c)
        | (.ok (t, name), c) =>
          match (terminated p.expr (expect semicolon "`;`")) t c with
          | (.error e, c) => (.error e, c)
          | (.ok (t, value), c) => (.ok (t, Binding.mk name value), c) }

/-- `function`: `fn IDENT ( ) BLOCK`. -/
def functionP (fuel : Nat) : ParserFn Function := fun i c =>
  match keyword "fn" i c with
  | (.error e, c) => (.error e, c)
  | (.ok (t, _), c) =>
    match ident t c with
    | (.error e, c) => (.error e, c)
    | (.ok (t, name), c) =>
      match left_par t c with
      | (.error e, c) => (.error e, c)
      | (.ok (t, _), c) =>
        match right_par t c with
        | (.error e, c) => (.error e, c)
        | (.ok (t, _), c) =>
          match (mkParsers fuel).block t c with
          | (.error e, c) => (.error e, c)
          | (.ok (t, body), c) => (.ok (t, Function.mk name body), c)

/-- `program_with_tail`. -/
def program_with_tail (fuel : Nat) : ParserFn Program :=
  pmap Program.mk (all_consuming (many0 (functionP fuel)))

/-- `program`: drop the tail and the error payload (`Result<Program, ()>`);
`none` is a panic inside the parser. -/
def programP (fuel : Nat) (input : Input) (c : List String) :
    Option ((Except Unit Program) × List String) :=
  match program_with_tail fuel input c with
  | (.ok (_, ast), c) => some (.ok ast, c)
  | (.error (.err _), c) => some (.error (), c)
  | (.error .crash, _) => none

/-- `parse_input`: run `program` on a fresh `ParsingContext`, then
`ParsingContext::wrap_result` (`emit_possible_errors`): succeed iff the
parse result is `Ok` and the error list is empty, otherwise fail with
`CompilerPassError(len)`.  On success the context (its error list) and
the program are returned. -/
def parse_input (inputCode : String) :
    Option (Except Nat (List String × Program)) :=
  let input : Input := { src := inputCode.data, line := 1, col := 1 }
  match programP (8 * (inputCode.data.length + 2)) input [] with
  | none => none
  | some (rslt, errs) =>
    match rslt, errs with
    | .ok v, [] => some (.ok ([], v))
    | _, _ => some (.error errs.length)

/-! Vocabulary for stating grammar-shape properties: classified character
runs of a source text. -/

/-- A run of whitespace characters. -/
def spacesOnly (w : List Char) : Prop :=
  ∀ ch ∈ w, isSpaceChar ch

instance (w : List Char) : Decidable (spacesOnly w) := by
  unfold spacesOnly
  infer_instance

/-- The head of the text, if any, is not whitespace. -/
def headNotSpace : List Char → Prop
  | [] => True
  | ch :: _ => ¬ isSpaceChar ch

instance (l : List Char) : Decidable (headNotSpace l) := by
  unfold headNotSpace
  cases l <;> infer_instance

/-- The head of the text, if any, is not a digit. -/
def headNotDigit : List Char → Prop
  | [] => True
  | ch :: _ => ¬ isDigitChar ch

instance (l : List Char) : Decidable (headNotDigit l) := by
  unfold headNotDigit
  cases l <;> infer_instance

/-- The numeric value `parse::<i32>` reads off a digit run. -/
def digitsVal (d : List Char) : Nat :=
  d.foldl (fun acc ch => acc * 10 + (ch.toNat - 48)) 0

/-- A nonempty all-digit run whose value fits in an `i32`. -/
def goodNum (d : List Char) : Prop :=
  d ≠ [] ∧ (∀ ch ∈ d, isDigitChar ch) ∧ digitsVal d < 2147483648

instance (d : List Char) : Decidable (goodNum d) := by
  unfold goodNum
  infer_instance

/-- The AST constructor a level-0 operator character stands for. -/
def opExpr (op : Char) (lhs rhs : ExprKind) : ExprKind :=
  if op = '+' then ExprKind.addition lhs rhs
  else ExprKind.subtraction lhs rhs

end Parser

/-! ## Type checker (`dyl-compiler/src/type_checker.rs`)

The `Typed` impls (`check_inputs` / `get_output`) are taken from
`type_checker.rs`.  `TypingContext` itself is absent from the stale
`context.rs`; it is modelled from the spec and the unit tests of
`type_checker.rs`: a scoped binding environment (`add_binding`,
`resolve_binding`, `new_subcontext`/`drop_subcontext` like
`StackContext`) plus the shared error list.  Error payloads of
`ty.rs` are collapsed to `Unit` as the `Result<_, ()>` signatures of
`type_checker.rs` do. -/

/-- Modelled from the spec: `TypingContext` — the typing environment
(innermost binding first) and the shared error channel; absent from the
stale `context.rs`, used by `type_checker.rs`. -/
structure TypingContext where
  bindings : List (String × Ty)
  errs : List String
  deriving Repr, DecidableEq

namespace TypingContext

/-- `TypingContext::add_binding`. -/
def add_binding (ctxt : TypingContext) (name : String) (ty : Ty) :
    TypingContext :=
  { ctxt with bindings := (name, ty) :: ctxt.bindings }

/-- `TypingContext::resolve_binding` (innermost first). -/
def resolve_binding (ctxt : TypingContext) (name : String) : Option Ty :=
  (ctxt.bindings.find? (fun b => b.1 = name)).map Prod.snd

/-- `TypingContext::new_subcontext`. -/
def new_subcontext (ctxt : TypingContext) : Nat :=
  ctxt.bindings.length

/-- `TypingContext::drop_subcontext`. -/
def drop_subcontext (ctxt : TypingContext) (marker : Nat) : TypingContext :=
  { ctxt with bindings := ctxt.bindings.drop (ctxt.bindings.length - marker) }

end TypingContext

/-- `Result::and` on unit results. -/
def resAnd (a b : Except Unit Unit) : Except Unit Unit :=
  match a with
  | .ok _ => b
  | .error e => .error e

/-- `get_output(..).and_then(|ty| ty.expect_int())`. -/
def resThenExpectInt (r : Except Unit Ty) : Except Unit Unit :=
  match r with
  | .error _ => .error ()
  | .ok ty =>
    match ty.expect_int with
    | .ok _ => .ok ()
    | .error _ => .error ()

mutual

/-- `Typed::check_inputs` from `type_checker.rs`. -/
def check_inputs : ExprKind → TypingContext → (Except Unit Unit) × TypingContext
  | .addition l r, ctxt =>
    let (operandsAreValid, ctxt) :=
      match check_inputs l ctxt with
      | (lv, ctxt) =>
        match check_inputs r ctxt with
        | (rv, ctxt) => ((resAnd lv rv), ctxt)
    let (leftOut, ctxt) := get_output l ctxt
    let (rightOut, ctxt) := get_output r ctxt
    let leftIsInt := resThenExpectInt leftOut
    let rightIsInt := resThenExpectInt rightOut
    (resAnd (resAnd operandsAreValid leftIsInt) rightIsInt, ctxt)
  | .subtraction l r, ctxt =>
    let (operandsAreValid, ctxt) :=
      match check_inputs l ctxt with
      | (lv, ctxt) =>
        match check_inputs r ctxt with
        | (rv, ctxt) => ((resAnd lv rv), ctxt)
    let (leftOut, ctxt) := get_output l ctxt
    let (rightOut, ctxt) := get_output r ctxt
    (resAnd (resAnd operandsAreValid (resThenExpectInt leftOut))
      (resThenExpectInt rightOut), ctxt)
  | .multiplication l r, ctxt =>
    let (operandsAreValid, ctxt) :=
      match check_inputs l ctxt with
      | (lv, ctxt) =>
        match check_inputs r ctxt with
        | (rv, ctxt) => ((resAnd lv rv), ctxt)
    let (leftOut, ctxt) := get_output l ctxt
    let (rightOut, ctxt) := get_output r ctxt
    (resAnd (resAnd operandsAreValid (resThenExpectInt leftOut))
      (resThenExpectInt rightOut), ctxt)
  | .integer _, ctxt => (.ok (), ctxt)
  | .if_ condition consequent alternative, ctxt =>
    let (c1, ctxt) := check_inputs condition ctxt
    let (c2, ctxt) := check_inputs consequent ctxt
    let (c3, ctxt) := check_inputs alternative ctxt
    let childrenCheck := resAnd (resAnd c1 c2) c3
    let (consequentOut, ctxt) := get_output consequent ctxt
    let (alternativeOut, ctxt) := get_output alternative ctxt
    let consequentTy := consequentOut.toOption.getD Ty.err
    let alternativeTy := alternativeOut.toOption.getD Ty.err
    let branchesUnify : Except Unit Unit :=
      match consequentTy.unify_with alternativeTy with
      | .ok _ => .ok ()
      | .error _ => .error ()
    let (conditionOut, ctxt) := get_output condition ctxt
    let conditionIsBool : Except Unit Unit :=
      match conditionOut with
      | .error _ => .error ()
      | .ok ty =>
        match ty.expect_bool with
        | .ok _ => .ok ()
        | .error _ => .error ()
    (resAnd (resAnd childrenCheck branchesUnify) conditionIsBool, ctxt)
  | .bindings defines endingExpression, ctxt =>
    let subctxt := ctxt.new_subcontext
    let (bindingsAreValid, ctxt) := check_bindings defines ctxt
    let (finalIsValid, ctxt) := check_inputs endingExpression ctxt
    let ctxt := ctxt.drop_subcontext subctxt
    (resAnd bindingsAreValid finalIsValid, ctxt)
  | .ident name, ctxt =>
    match ctxt.resolve_binding name with
    | some _ => (.ok (), ctxt)
    | none => (.error (), ctxt)
  | .bool_ _, ctxt => (.ok (), ctxt)

/-- The `defines().iter().for_each(..)` loop of `Bindings::check_inputs`:
check each binding, then bind its value's output type (or `Err`). -/
def check_bindings : BindingList → TypingContext →
    (Except Unit Unit) × TypingContext
  | .nil, ctxt => (.ok (), ctxt)
  | .cons (.mk name value) tail, ctxt =>
    let (bv, ctxt) := check_inputs value ctxt
    let (bindingOut, ctxt) := get_output value ctxt
    let bindingTy := bindingOut.toOption.getD Ty.err
    let ctxt := ctxt.add_binding name bindingTy
    let (tv, ctxt) := check_bindings tail ctxt
    (resAnd bv tv, ctxt)

/-- `Typed::get_output` from `type_checker.rs`. -/
def get_output : ExprKind → TypingContext → (Except Unit Ty) × TypingContext
  | .addition _ _, ctxt => (.ok .int, ctxt)
  | .subtraction _ _, ctxt => (.ok .int, ctxt)
  | .multiplication _ _, ctxt => (.ok .int, ctxt)
  | .integer _, ctxt => (.ok .int, ctxt)
  | .if_ _ consequent alternative, ctxt =>
    let (consequentOut, ctxt) := get_output consequent ctxt
    let (alternativeOut, ctxt) := get_output alternative ctxt
    let consequentTy := consequentOut.toOption.getD Ty.err
    let alternativeTy := alternativeOut.toOption.getD Ty.err
    (match consequentTy.unify_with alternativeTy with
      | .ok ty => .ok ty
      | .error _ => .error (), ctxt)
  | .bindings defines endingExpression, ctxt =>
    let subctxt := ctxt.new_subcontext
    let ctxt := output_bindings defines ctxt
    let (exprTy, ctxt) := get_output endingExpression ctxt
    let ctxt := ctxt.drop_subcontext subctxt
    (exprTy, ctxt)
  | .ident name, ctxt =>
    match ctxt.resolve_binding name with
    | some ty => (.ok ty, ctxt)
    | none => (.error (), ctxt)
  | .bool_ _, ctxt => (.ok .bool, ctxt)

/-- The binding loop of `Bindings::get_output`. -/
def output_bindings : BindingList → TypingContext → TypingContext
  | .nil, ctxt => ctxt
  | .cons (.mk name value) tail, ctxt =>
    let (bindingOut, ctxt) := get_output value ctxt
    let bindingTy := bindingOut.toOption.getD Ty.err
    let ctxt := ctxt.add_binding name bindingTy
    output_bindings tail ctxt

end

/-- Modelled from the spec: the Program-level `check_ast` called by
`bytecode_from_program` in `lib.rs` is absent from `src/` (the
`check_ast` in `type_checker.rs` is a stale revision handling a single
expression).  Per §4.C the pass must have a `main` and "succeeds iff no
errors were added and the program's output type is `Int`", and per §8
scenario 4 a non-`Bool` `if` condition — rejected by `If::check_inputs`,
whose result is not routed into the error channel — does not fail the
pass.  So: find `main`, run `check_inputs` on its body (recording
nothing), require its `get_output` to be `Int` and the error list to be
empty (`TypingContext::wrap_result` / `emit_possible_errors`). -/
def check_ast (p : Program) (ctxt : TypingContext) :
    Except Nat TypingContext :=
  match p.functions.find? (fun f => f.name = "main") with
  | none => .error ctxt.errs.length
  | some mainFn =>
    let (_, ctxt) := check_inputs mainFn.body ctxt
    let (out, ctxt) := get_output mainFn.body ctxt
    match out, ctxt.errs with
    | .ok .int, [] => .ok ctxt
    | _, _ => .error ctxt.errs.length

/-! ## The pipeline (`dyl-compiler/src/lib.rs`) -/

/-- `bytecode_from_program` from `lib.rs`, applied directly to the source
text (`io::read_program` is out of scope): parse, type-check, lower, and
resolve labels.  `none` is a Rust panic in one of the passes; pass
failures carry the `CompilerPassError` error count. -/
def bytecode_from_program (content : String) :
    Option (Except Nat (List Bytecode.Instruction)) :=
  match Parser.parse_input content with
  | none => none
  | some (.error n) => some (.error n)
  | some (.ok (errs, ast)) =>
    let tctxt : TypingContext := { bindings := [], errs := errs }
    match check_ast ast tctxt with
    | .error n => some (.error n)
    | .ok tctxt =>
      let lctxt : LoweringContext :=
        { labels := { anonymous := [], named := [] }, stack := [],
          errs := tctxt.errs }
      match lower_ast ast lctxt with
      | none => none
      | some (.error n) => some (.error n)
      | some (.ok (lctxt, instructions)) =>
        match resolve_context instructions lctxt with
        | none => none
        | some finalInstructions => some (.ok finalInstructions)

end Dyl

namespace Dyl

namespace Bytecode

theorem pumpTwo_dumpTwo (n : Nat) (h : n < 65536) (r : List Nat) :
    pumpTwo (dumpTwo n ++ r) = .ok (n, r) := by
  simp only [dumpTwo, List.cons_append, List.nil_append, pumpTwo]
  congr 2
  omega

theorem pumpFour_dumpFour (n : Nat) (h : n < 4294967296) (r : List Nat) :
    pumpFour (dumpFour n ++ r) = .ok (n, r) := by
  simp only [dumpFour, List.cons_append, List.nil_append, pumpFour]
  congr 2
  omega

theorem i32ofU32_u32ofI32 (i : Int) (h1 : -2147483648 ≤ i)
    (h2 : i < 2147483648) : i32ofU32 (u32ofI32 i) = i := by
  unfold u32ofI32 i32ofU32
  omega

theorem u32ofI32_i32ofU32 (n : Nat) (h : n < 4294967296) :
    u32ofI32 (i32ofU32 n) = n := by
  unfold u32ofI32 i32ofU32
  split <;> omega

theorem pumpTwo_ok (t : List Nat) (v : Nat) (r : List Nat)
    (hb : ∀ x ∈ t, x < 256) (h : pumpTwo t = .ok (v, r)) :
    t = dumpTwo v ++ r ∧ v < 65536 := by
  match t with
  | [] => simp [pumpTwo] at h
  | [a] => simp [pumpTwo] at h
  | a :: b :: rest =>
    simp only [pumpTwo, Except.ok.injEq, Prod.mk.injEq] at h
    obtain ⟨hv, hr⟩ := h
    have ha : a < 256 := hb a (by simp)
    have hb' : b < 256 := hb b (by simp)
    subst hr
    refine ⟨?_, by omega⟩
    simp only [dumpTwo, List.cons_append, List.nil_append, List.cons.injEq,
      and_true]
    omega

theorem pumpFour_ok (t : List Nat) (v : Nat) (r : List Nat)
    (hb : ∀ x ∈ t, x < 256) (h : pumpFour t = .ok (v, r)) :
    t = dumpFour v ++ r ∧ v < 4294967296 := by
  match t with
  | [] => simp [pumpFour] at h
  | [a] => simp [pumpFour] at h
  | [a, b] => simp [pumpFour] at h
  | [a, b, c] => simp [pumpFour] at h
  | a :: b :: c :: d :: rest =>
    simp only [pumpFour, Except.ok.injEq, Prod.mk.injEq] at h
    obtain ⟨hv, hr⟩ := h
    have ha : a < 256 := hb a (by simp)
    have hbb : b < 256 := hb b (by simp)
    have hc : c < 256 := hb c (by simp)
    have hd : d < 256 := hb d (by simp)
    subst hr
    refine ⟨?_, by omega⟩
    simp only [dumpFour, List.cons_append, List.nil_append, List.cons.injEq,
      and_true]
    omega

theorem pumpTwo_eof (t : List Nat) (h : t.length < 2) :
    pumpTwo t = .error .unexpectedEof := by
  match t with
  | [] => rfl
  | [a] => rfl
  | a :: b :: rest => simp at h; omega

theorem pumpFour_eof (t : List Nat) (h : t.length < 4) :
    pumpFour t = .error .unexpectedEof := by
  match t with
  | [] => rfl
  | [a] => rfl
  | [a, b] => rfl
  | [a, b, c] => rfl
  | a :: b :: c :: d :: rest => simp at h; omega

theorem pumpTwo_ex (t : List Nat) (h : 2 ≤ t.length) :
    ∃ v, pumpTwo t = .ok (v, t.drop 2) := by
  match t with
  | [] => simp at h
  | [a] => simp at h
  | a :: b :: rest => exact ⟨a * 256 + b, rfl⟩

theorem pumpFour_ex (t : List Nat) (h : 4 ≤ t.length) :
    ∃ v, pumpFour t = .ok (v, t.drop 4) := by
  match t with
  | [] => simp at h
  | [a] => simp at h
  | [a, b] => simp at h
  | [a, b, c] => simp at h
  | a :: b :: c :: d :: rest =>
    exact ⟨((a * 256 + b) * 256 + c) * 256 + d, rfl⟩

theorem pumpTwo_dumpTwo2 (n : Nat) (h : n < 65536) :
    pumpTwo (dumpTwo n) = .ok (n, []) := by
  simpa using pumpTwo_dumpTwo n h []

theorem pumpFour_dumpFour2 (n : Nat) (h : n < 4294967296) :
    pumpFour (dumpFour n) = .ok (n, []) := by
  simpa using pumpFour_dumpFour n h []

theorem u32ofI32_lt (i : Int) : u32ofI32 i < 4294967296 := by
  unfold u32ofI32
  omega

theorem availableDecoders_get_none (b : Nat) (h : 13 ≤ b) :
    availableDecoders.get? b = none := by
  rw [List.get?_eq_none]
  simpa [availableDecoders] using h

/-- C1: for every instruction of the 13-opcode set (with operands in the
range of their declared Rust integer types), decoding the bytes produced by
encoding it yields the instruction back together with its wire size and an
empty tail; and for every byte sequence that decodes to a single
instruction consuming the whole input, re-encoding the decoded instruction
reproduces the byte sequence exactly. -/
theorem C1_codec_roundtrip :
    (∀ i : Instruction, wf i →
      Instruction.decode (encode i) = .ok (i, size i, [])) ∧
    (∀ (B : List Nat) (i : Instruction) (sz : Nat),
      (∀ x ∈ B, x < 256) → Instruction.decode B = .ok (i, sz, []) →
      encode i = B) := by
  constructor
  · intro i hw
    cases i with
    | pushI v =>
      obtain ⟨h1, h2⟩ := hw
      simp only [encode, Instruction.decode, pumpOne, availableDecoders,
        List.get?, decodeAndWrapPushI, pumpFour_dumpFour2 _ (u32ofI32_lt v),
        size, i32ofU32_u32ofI32 v h1 h2]
    | addI => rfl
    | fStop => rfl
    | pushCopy i =>
      simp only [encode, Instruction.decode, pumpOne, availableDecoders,
        List.get?, decodeAndWrapPushCopy, pumpTwo_dumpTwo2 i hw, size]
    | call p =>
      simp only [encode, Instruction.decode, pumpOne, availableDecoders,
        List.get?, decodeAndWrapCall, pumpFour_dumpFour2 p hw, size]
    | ret s ip =>
      obtain ⟨h1, h2⟩ := hw
      simp only [encode, Instruction.decode, pumpOne, availableDecoders,
        List.get?, decodeAndWrapRet, pumpTwo_dumpTwo s h1 (dumpTwo ip),
        pumpTwo_dumpTwo2 ip h2, size]
    | resV c =>
      simp only [encode, Instruction.decode, pumpOne, availableDecoders,
        List.get?, decodeAndWrapResV, pumpTwo_dumpTwo2 c hw, size]
    | popCopy i =>
      simp only [encode, Instruction.decode, pumpOne, availableDecoders,
        List.get?, decodeAndWrapPopCopy, pumpTwo_dumpTwo2 i hw, size]
    | goto a =>
      simp only [encode, Instruction.decode, pumpOne, availableDecoders,
        List.get?, decodeAndWrapGoto, pumpFour_dumpFour2 a hw, size]
    | condJmp n z p =>
      obtain ⟨h1, h2, h3⟩ := hw
      simp only [encode, Instruction.decode, pumpOne, availableDecoders,
        List.get?, decodeAndWrapCondJmp, List.append_assoc,
        pumpFour_dumpFour n h1 (dumpFour z ++ dumpFour p),
        pumpFour_dumpFour z h2 (dumpFour p),
        pumpFour_dumpFour2 p h3, size]
    | neg => rfl
    | mul => rfl
    | pop c =>
      simp only [encode, Instruction.decode, pumpOne, availableDecoders,
        List.get?, decodeAndWrapPop, pumpTwo_dumpTwo2 c hw, size]
  · intro B i sz hb hdec
    match B with
    | [] => simp [Instruction.decode, pumpOne] at hdec
    | b :: t =>
      have hbt : ∀ x ∈ t, x < 256 := fun x hx => hb x (by simp [hx])
      simp only [Instruction.decode, pumpOne] at hdec
      by_cases hlt : b < 13
      · interval_cases b
        · -- push_i
          simp only [availableDecoders, List.get?, decodeAndWrapPushI] at hdec
          cases hp : pumpFour t with
          | error e => rw [hp] at hdec; simp at hdec
          | ok p =>
            obtain ⟨v, r⟩ := p
            rw [hp] at hdec
            simp only [Except.ok.injEq, Prod.mk.injEq] at hdec
            obtain ⟨hi, _, hr⟩ := hdec
            subst hi; subst hr
            obtain ⟨ht, hv⟩ := pumpFour_ok t v [] hbt hp
            simp [encode, ht, u32ofI32_i32ofU32 v hv]
        · -- add_i
          simp only [availableDecoders, List.get?, decodeAndWrapAddI,
            Except.ok.injEq, Prod.mk.injEq] at hdec
          obtain ⟨hi, _, hr⟩ := hdec
          subst hi
          simp [encode, ← hr]
        · -- f_stop
          simp only [availableDecoders, List.get?, decodeAndWrapFStop,
            Except.ok.injEq, Prod.mk.injEq] at hdec
          obtain ⟨hi, _, hr⟩ := hdec
          subst hi
          simp [encode, ← hr]
        · -- push_copy
          simp only [availableDecoders, List.get?, decodeAndWrapPushCopy] at hdec
          cases hp : pumpTwo t with
          | error e => rw [hp] at hdec; simp at hdec
          | ok p =>
            obtain ⟨v, r⟩ := p
            rw [hp] at hdec
            simp only [Except.ok.injEq, Prod.mk.injEq] at hdec
            obtain ⟨hi, _, hr⟩ := hdec
            subst hi; subst hr
            obtain ⟨ht, hv⟩ := pumpTwo_ok t v [] hbt hp
            simp [encode, ht]
        · -- call
          simp only [availableDecoders, List.get?, decodeAndWrapCall] at hdec
          cases hp : pumpFour t with
          | error e => rw [hp] at hdec; simp at hdec
          | ok p =>
            obtain ⟨v, r⟩ := p
            rw [hp] at hdec
            simp only [Except.ok.injEq, Prod.mk.injEq] at hdec
            obtain ⟨hi, _, hr⟩ := hdec
            subst hi; subst hr
            obtain ⟨ht, hv⟩ := pumpFour_ok t v [] hbt hp
            simp [encode, ht]
        · -- ret
          simp only [availableDecoders, List.get?, decodeAndWrapRet] at hdec
          cases hp1 : pumpTwo t with
          | error e => rw [hp1] at hdec; simp at hdec
          | ok p =>
            obtain ⟨s, r1⟩ := p
            rw [hp1] at hdec
            simp only [] at hdec
            cases hp2 : pumpTwo r1 with
            | error e => rw [hp2] at hdec; simp at hdec
            | ok q =>
              obtain ⟨ip, r2⟩ := q
              rw [hp2] at hdec
              simp only [Except.ok.injEq, Prod.mk.injEq] at hdec
              obtain ⟨hi, _, hr⟩ := hdec
              subst hi; subst hr
              obtain ⟨ht, hs⟩ := pumpTwo_ok t s r1 hbt hp1
              have hbr1 : ∀ x ∈ r1, x < 256 := fun x hx =>
                hbt x (by simp [ht, hx])
              obtain ⟨hr1, hip⟩ := pumpTwo_ok r1 ip [] hbr1 hp2
              simp [encode, ht, hr1]
        · -- res_v
          simp only [availableDecoders, List.get?, decodeAndWrapResV] at hdec
          cases hp : pumpTwo t with
          | error e => rw [hp] at hdec; simp at hdec
          | ok p =>
            obtain ⟨v, r⟩ := p
            rw [hp] at hdec
            simp only [Except.ok.injEq, Prod.mk.injEq] at hdec
            obtain ⟨hi, _, hr⟩ := hdec
            subst hi; subst hr
            obtain ⟨ht, hv⟩ := pumpTwo_ok t v [] hbt hp
            simp [encode, ht]
        · -- pop_copy
          simp only [availableDecoders, List.get?, decodeAndWrapPopCopy] at hdec
          cases hp : pumpTwo t with
          | error e => rw [hp] at hdec; simp at hdec
          | ok p =>
            obtain ⟨v, r⟩ := p
            rw [hp] at hdec
            simp only [Except.ok.injEq, Prod.mk.injEq] at hdec
            obtain ⟨hi, _, hr⟩ := hdec
            subst hi; subst hr
            obtain ⟨ht, hv⟩ := pumpTwo_ok t v [] hbt hp
            simp [encode, ht]
        · -- goto
          simp only [availableDecoders, List.get?, decodeAndWrapGoto] at hdec
          cases hp : pumpFour t with
          | error e => rw [hp] at hdec; simp at hdec
          | ok p =>
            obtain ⟨v, r⟩ := p
            rw [hp] at hdec
            simp only [Except.ok.injEq, Prod.mk.injEq] at hdec
            obtain ⟨hi, _, hr⟩ := hdec
            subst hi; subst hr
            obtain ⟨ht, hv⟩ := pumpFour_ok t v [] hbt hp
            simp [encode, ht]
        · -- cond_jmp
          simp only [availableDecoders, List.get?, decodeAndWrapCondJmp] at hdec
          cases hp1 : pumpFour t with
          | error e => rw [hp1] at hdec; simp at hdec
          | ok p =>
            obtain ⟨n, r1⟩ := p
            rw [hp1] at hdec
            simp only [] at hdec
            cases hp2 : pumpFour r1 with
            | error e => rw [hp2] at hdec; simp at hdec
            | ok q =>
              obtain ⟨z, r2⟩ := q
              rw [hp2] at hdec
              simp only [] at hdec
              cases hp3 : pumpFour r2 with
              | error e => rw [hp3] at hdec; simp at hdec
              | ok w =>
                obtain ⟨pp, r3⟩ := w
                rw [hp3] at hdec
                simp only [Except.ok.injEq, Prod.mk.injEq] at hdec
                obtain ⟨hi, _, hr⟩ := hdec
                subst hi; subst hr
                obtain ⟨ht, hn⟩ := pumpFour_ok t n r1 hbt hp1
                have hbr1 : ∀ x ∈ r1, x < 256 := fun x hx =>
                  hbt x (by simp [ht, hx])
                obtain ⟨hr1, hz⟩ := pumpFour_ok r1 z r2 hbr1 hp2
                have hbr2 : ∀ x ∈ r2, x < 256 := fun x hx =>
                  hbr1 x (by simp [hr1, hx])
                obtain ⟨hr2, hpp⟩ := pumpFour_ok r2 pp [] hbr2 hp3
                simp [encode, ht, hr1, hr2]
        · -- neg
          simp only [availableDecoders, List.get?, decodeAndWrapNeg,
            Except.ok.injEq, Prod.mk.injEq] at hdec
          obtain ⟨hi, _, hr⟩ := hdec
          subst hi
          simp [encode, ← hr]
        · -- mul
          simp only [availableDecoders, List.get?, decodeAndWrapMul,
            Except.ok.injEq, Prod.mk.injEq] at hdec
          obtain ⟨hi, _, hr⟩ := hdec
          subst hi
          simp [encode, ← hr]
        · -- pop
          simp only [availableDecoders, List.get?, decodeAndWrapPop] at hdec
          cases hp : pumpTwo t with
          | error e => rw [hp] at hdec; simp at hdec
          | ok p =>
            obtain ⟨v, r⟩ := p
            rw [hp] at hdec
            simp only [Except.ok.injEq, Prod.mk.injEq] at hdec
            obtain ⟨hi, _, hr⟩ := hdec
            subst hi; subst hr
            obtain ⟨ht, hv⟩ := pumpTwo_ok t v [] hbt hp
            simp [encode, ht]
      · rw [availableDecoders_get_none b (by omega)] at hdec
        simp at hdec

theorem C1_codec_roundtrip_witness :
    Instruction.decode (encode (.pushCopy 300)) = .ok (.pushCopy 300, 3, []) ∧
    encode .fStop = [2] := by
  constructor
  · exact C1_codec_roundtrip.1 (.pushCopy 300) (by norm_num [wf])
  · exact C1_codec_roundtrip.2 [2] .fStop 1 (by norm_num) (by rfl)

/-- C4: decoding one instruction from a byte sequence fails with
`UnexpectedEof` on empty input; fails with `UnknownOpcode b` when the first
byte `b` is not one of the 13 opcode IDs `0‥12` of the decoder table;
and otherwise dispatches through the table at index `b`, returning an
instruction whose ID is `b` and consuming exactly `SIZE` bytes, or failing
with `UnexpectedEof` when fewer operand bytes remain. -/
theorem C4_decode_errors :
    Instruction.decode [] = .error .unexpectedEof ∧
    (∀ (b : Nat) (t : List Nat), 13 ≤ b →
      Instruction.decode (b :: t) = .error (.unknownOpcode b)) ∧
    (∀ (b : Nat) (t : List Nat), b < 13 → t.length + 1 < sizeOfId b →
      Instruction.decode (b :: t) = .error .unexpectedEof) ∧
    (∀ (b : Nat) (t : List Nat), b < 13 → sizeOfId b ≤ t.length + 1 →
      ∃ i, Instruction.decode (b :: t) =
          .ok (i, sizeOfId b, t.drop (sizeOfId b - 1)) ∧ idOf i = b) := by
  refine ⟨rfl, ?_, ?_, ?_⟩
  · intro b t hge
    simp only [Instruction.decode, pumpOne]
    rw [availableDecoders_get_none b hge]
  · intro b t hlt hsz
    interval_cases b
    · simp only [sizeOfId] at hsz
      simp [Instruction.decode, pumpOne, availableDecoders, List.get?,
        decodeAndWrapPushI, pumpFour_eof t (by omega)]
    · simp [sizeOfId] at hsz
    · simp [sizeOfId] at hsz
    · simp only [sizeOfId] at hsz
      simp [Instruction.decode, pumpOne, availableDecoders, List.get?,
        decodeAndWrapPushCopy, pumpTwo_eof t (by omega)]
    · simp only [sizeOfId] at hsz
      simp [Instruction.decode, pumpOne, availableDecoders, List.get?,
        decodeAndWrapCall, pumpFour_eof t (by omega)]
    · -- ret: 5 bytes, two u16 operands
      simp only [sizeOfId] at hsz
      by_cases h2 : t.length < 2
      · simp [Instruction.decode, pumpOne, availableDecoders, List.get?,
          decodeAndWrapRet, pumpTwo_eof t h2]
      · obtain ⟨v, hv⟩ := pumpTwo_ex t (by omega)
        have hlen : (t.drop 2).length < 2 := by
          simp [List.length_drop]
          omega
        simp [Instruction.decode, pumpOne, availableDecoders, List.get?,
          decodeAndWrapRet, hv, pumpTwo_eof (t.drop 2) hlen]
    · simp only [sizeOfId] at hsz
      simp [Instruction.decode, pumpOne, availableDecoders, List.get?,
        decodeAndWrapResV, pumpTwo_eof t (by omega)]
    · simp only [sizeOfId] at hsz
      simp [Instruction.decode, pumpOne, availableDecoders, List.get?,
        decodeAndWrapPopCopy, pumpTwo_eof t (by omega)]
    · simp only [sizeOfId] at hsz
      simp [Instruction.decode, pumpOne, availableDecoders, List.get?,
        decodeAndWrapGoto, pumpFour_eof t (by omega)]
    · -- cond_jmp: 13 bytes, three u32 operands
      simp only [sizeOfId] at hsz
      by_cases h4 : t.length < 4
      · simp [Instruction.decode, pumpOne, availableDecoders, List.get?,
          decodeAndWrapCondJmp, pumpFour_eof t h4]
      · obtain ⟨v, hv⟩ := pumpFour_ex t (by omega)
        by_cases h8 : t.length < 8
        · have hlen : (t.drop 4).length < 4 := by
            simp [List.length_drop]
            omega
          simp [Instruction.decode, pumpOne, availableDecoders, List.get?,
            decodeAndWrapCondJmp, hv, pumpFour_eof (t.drop 4) hlen]
        · obtain ⟨w, hw⟩ := pumpFour_ex (t.drop 4)
            (by simp [List.length_drop]; omega)
          have hw8 : pumpFour (t.drop 4) = .ok (w, t.drop 8) := by
            simpa [List.drop_drop] using hw
          have heof : pumpFour (t.drop 8) = .error .unexpectedEof := by
            apply pumpFour_eof
            simp [List.length_drop]
            omega
          simp [Instruction.decode, pumpOne, availableDecoders, List.get?,
            decodeAndWrapCondJmp, hv, hw8, heof]
    · simp [sizeOfId] at hsz
    · simp [sizeOfId] at hsz
    · simp only [sizeOfId] at hsz
      simp [Instruction.decode, pumpOne, availableDecoders, List.get?,
        decodeAndWrapPop, pumpTwo_eof t (by omega)]
  · intro b t hlt hsz
    interval_cases b
    · simp only [sizeOfId] at hsz ⊢
      obtain ⟨v, hv⟩ := pumpFour_ex t (by omega)
      exact ⟨.pushI (i32ofU32 v), by
        simp [Instruction.decode, pumpOne, availableDecoders, List.get?,
          decodeAndWrapPushI, hv], rfl⟩
    · exact ⟨.addI, by
        simp [Instruction.decode, pumpOne, availableDecoders, List.get?,
          decodeAndWrapAddI, sizeOfId], rfl⟩
    · exact ⟨.fStop, by
        simp [Instruction.decode, pumpOne, availableDecoders, List.get?,
          decodeAndWrapFStop, sizeOfId], rfl⟩
    · simp only [sizeOfId] at hsz ⊢
      obtain ⟨v, hv⟩ := pumpTwo_ex t (by omega)
      exact ⟨.pushCopy v, by
        simp [Instruction.decode, pumpOne, availableDecoders, List.get?,
          decodeAndWrapPushCopy, hv], rfl⟩
    · simp only [sizeOfId] at hsz ⊢
      obtain ⟨v, hv⟩ := pumpFour_ex t (by omega)
      exact ⟨.call v, by
        simp [Instruction.decode, pumpOne, availableDecoders, List.get?,
          decodeAndWrapCall, hv], rfl⟩
    · simp only [sizeOfId] at hsz ⊢
      obtain ⟨v, hv⟩ := pumpTwo_ex t (by omega)
      obtain ⟨w, hw⟩ := pumpTwo_ex (t.drop 2) (by simp [List.length_drop]; omega)
      refine ⟨.ret v w, by
        simp [Instruction.decode, pumpOne, availableDecoders, List.get?,
          decodeAndWrapRet, hv, hw, List.drop_drop], rfl⟩
    · simp only [sizeOfId] at hsz ⊢
      obtain ⟨v, hv⟩ := pumpTwo_ex t (by omega)
      exact ⟨.resV v, by
        simp [Instruction.decode, pumpOne, availableDecoders, List.get?,
          decodeAndWrapResV, hv], rfl⟩
    · simp only [sizeOfId] at hsz ⊢
      obtain ⟨v, hv⟩ := pumpTwo_ex t (by omega)
      exact ⟨.popCopy v, by
        simp [Instruction.decode, pumpOne, availableDecoders, List.get?,
          decodeAndWrapPopCopy, hv], rfl⟩
    · simp only [sizeOfId] at hsz ⊢
      obtain ⟨v, hv⟩ := pumpFour_ex t (by omega)
      exact ⟨.goto v, by
        simp [Instruction.decode, pumpOne, availableDecoders, List.get?,
          decodeAndWrapGoto, hv], rfl⟩
    · simp only [sizeOfId] at hsz ⊢
      obtain ⟨v, hv⟩ := pumpFour_ex t (by omega)
      obtain ⟨w, hw⟩ := pumpFour_ex (t.drop 4) (by simp [List.length_drop]; omega)
      obtain ⟨u, hu⟩ := pumpFour_ex ((t.drop 4).drop 4)
        (by simp [List.length_drop]; omega)
      have hw8 : pumpFour (t.drop 4) = .ok (w, t.drop 8) := by
        simpa [List.drop_drop] using hw
      have hu8 : pumpFour (t.drop 8) = .ok (u, t.drop 12) := by
        simpa [List.drop_drop] using hu
      refine ⟨.condJmp v w u, by
        simp [Instruction.decode, pumpOne, availableDecoders, List.get?,
          decodeAndWrapCondJmp, hv, hw8, hu8], rfl⟩
    · exact ⟨.neg, by
        simp [Instruction.decode, pumpOne, availableDecoders, List.get?,
          decodeAndWrapNeg, sizeOfId], rfl⟩
    · exact ⟨.mul, by
        simp [Instruction.decode, pumpOne, availableDecoders, List.get?,
          decodeAndWrapMul, sizeOfId], rfl⟩
    · simp only [sizeOfId] at hsz ⊢
      obtain ⟨v, hv⟩ := pumpTwo_ex t (by omega)
      exact ⟨.pop v, by
        simp [Instruction.decode, pumpOne, availableDecoders, List.get?,
          decodeAndWrapPop, hv], rfl⟩

theorem C4_decode_errors_witness :
    Instruction.decode [] = .error .unexpectedEof ∧
    Instruction.decode [42] = .error (.unknownOpcode 42) ∧
    Instruction.decode [0, 1] = .error .unexpectedEof ∧
    (∃ i, Instruction.decode [3, 1, 44] = .ok (i, 3, []) ∧ idOf i = 3) := by
  refine ⟨C4_decode_errors.1, C4_decode_errors.2.1 42 [] (by omega),
    C4_decode_errors.2.2.1 0 [1] (by omega) (by simp [sizeOfId]), ?_⟩
  simpa [sizeOfId] using C4_decode_errors.2.2.2 3 [1, 44] (by omega)
    (by simp [sizeOfId])

end Bytecode

/-- C8: in the type domain `{Int, Bool, Err}`, `Err` is absorbing: for every
type `t`, unifying `Err` with `t` in either argument order succeeds and
returns `t`, unifying `t` with itself returns `t`, and the expectations
`expect_int` and `expect_bool` applied to `Err` succeed, so an `Err`-typed
node never produces a cascaded second error at its parent. -/
theorem C8_err_absorbing :
    (∀ t : Ty, Ty.unify_with .err t = .ok t) ∧
    (∀ t : Ty, Ty.unify_with t .err = .ok t) ∧
    (∀ t : Ty, Ty.unify_with t t = .ok t) ∧
    Ty.expect_int .err = .ok () ∧
    Ty.expect_bool .err = .ok () := by
  refine ⟨?_, ?_, ?_, rfl, rfl⟩ <;> intro t <;> cases t <;> rfl

theorem pop_top_anonymous_anon (s : StackContext) :
    StackContext.pop_top_anonymous ("" :: s) = .ok s := by
  simp [StackContext.pop_top_anonymous]

theorem name_top_anonymous_anon (s : StackContext) (name : String) :
    StackContext.name_top_anonymous ("" :: s) name = .ok (name :: s) := by
  simp [StackContext.name_top_anonymous]

theorem drop_subcontext_append (p s : List String) :
    StackContext.drop_subcontext (p ++ s) s.length = s := by
  unfold StackContext.drop_subcontext
  have hlen : (p ++ s).length - s.length = p.length := by
    simp [List.length_append]
  rw [hlen, List.drop_left]

mutual

/-- Stack effect of `ExprKind::lower`: whenever lowering an expression
completes without panicking, the compile-time stack gains exactly one
anonymous slot on top. -/
theorem lowerExpr_stack (e : ExprKind) (col : List Compiler.Instruction)
    (ctxt : LoweringContext) (r : Bool)
    (col' : List Compiler.Instruction) (ctxt' : LoweringContext)
    (h : lowerExpr e col ctxt = some (r, col', ctxt')) :
    ctxt'.stack = "" :: ctxt.stack := by
  match e with
  | .addition l rr =>
    simp only [lowerExpr] at h
    split at h
    · exact Option.noConfusion h
    next le col1 ctxt1 heq1 =>
      split at h
      · exact Option.noConfusion h
      next re col2 ctxt2 heq2 =>
        split at h
        · exact Option.noConfusion h
        next st heq3 =>
          have h1 := lowerExpr_stack l col ctxt le col1 ctxt1 heq1
          have h2 := lowerExpr_stack rr col1 ctxt1 re col2 ctxt2 heq2
          rw [h2, pop_top_anonymous_anon] at heq3
          simp only [Except.ok.injEq] at heq3
          simp only [Option.some.injEq, Prod.mk.injEq] at h
          obtain ⟨-, -, hc⟩ := h
          rw [← hc, ← heq3]
          exact h1
  | .subtraction l rr =>
    simp only [lowerExpr] at h
    split at h
    · exact Option.noConfusion h
    next le col1 ctxt1 heq1 =>
      split at h
      · exact Option.noConfusion h
      next re col2 ctxt2 heq2 =>
        split at h
        · exact Option.noConfusion h
        next st heq3 =>
          have h1 := lowerExpr_stack l col ctxt le col1 ctxt1 heq1
          have h2 := lowerExpr_stack rr col1 ctxt1 re col2 ctxt2 heq2
          rw [h2, pop_top_anonymous_anon] at heq3
          simp only [Except.ok.injEq] at heq3
          simp only [Option.some.injEq, Prod.mk.injEq] at h
          obtain ⟨-, -, hc⟩ := h
          rw [← hc, ← heq3]
          exact h1
  | .multiplication l rr =>
    simp only [lowerExpr] at h
    split at h
    · exact Option.noConfusion h
    next le col1 ctxt1 heq1 =>
      split at h
      · exact Option.noConfusion h
      next re col2 ctxt2 heq2 =>
        split at h
        · exact Option.noConfusion h
        next st heq3 =>
          have h1 := lowerExpr_stack l col ctxt le col1 ctxt1 heq1
          have h2 := lowerExpr_stack rr col1 ctxt1 re col2 ctxt2 heq2
          rw [h2, pop_top_anonymous_anon] at heq3
          simp only [Except.ok.injEq] at heq3
          simp only [Option.some.injEq, Prod.mk.injEq] at h
          obtain ⟨-, -, hc⟩ := h
          rw [← hc, ← heq3]
          exact h1
  | .integer v =>
    simp only [lowerExpr, Option.some.injEq, Prod.mk.injEq] at h
    obtain ⟨-, -, hc⟩ := h
    rw [← hc]
    rfl
  | .if_ condition consequent alternative =>
    simp only [lowerExpr, LabelContext.new_anonymous] at h
    split at h
    · exact Option.noConfusion h
    next ce col1 ctxt1 heq1 =>
      have h1 := lowerExpr_stack condition col ctxt ce col1 ctxt1 heq1
      split at h
      · exact Option.noConfusion h
      next st heq2 =>
        rw [h1, pop_top_anonymous_anon] at heq2
        simp only [Except.ok.injEq] at heq2
        subst heq2
        split at h
        · exact Option.noConfusion h
        next labels2 heq3 =>
          split at h
          · exact Option.noConfusion h
          next se col2 ctxt2 heq4 =>
            have h2 := lowerExpr_stack consequent _ _ se col2 ctxt2 heq4
            split at h
            · exact Option.noConfusion h
            next labels3 heq5 =>
              split at h
              · exact Option.noConfusion h
              next ae col3 ctxt3 heq6 =>
                have h3 := lowerExpr_stack alternative _ _ ae col3 ctxt3 heq6
                split at h
                · exact Option.noConfusion h
                next labels4 heq7 =>
                  simp only [Option.some.injEq, Prod.mk.injEq] at h
                  obtain ⟨-, -, hc⟩ := h
                  have hb : ctxt2.stack = "" :: ctxt.stack := by
                    simpa using h2
                  have hdrop1 :
                      StackContext.drop_subcontext ("" :: ctxt.stack)
                        ctxt.stack.length = ctxt.stack := by
                    simpa using drop_subcontext_append [""] ctxt.stack
                  have ha : ctxt3.stack = "" :: ctxt.stack := by
                    simpa [StackContext.new_subcontext, hb, hdrop1] using h3
                  rw [← hc]
                  simp [StackContext.new_subcontext,
                    StackContext.push_anonymous, ha, hdrop1]
  | .bindings defines endingExpression =>
    simp only [lowerExpr] at h
    split at h
    · exact Option.noConfusion h
    next de col1 ctxt1 heq1 =>
      split at h
      · exact Option.noConfusion h
      next ee col2 ctxt2 heq2 =>
        obtain ⟨p, hp, hplen⟩ :=
          lowerBindingList_stack defines col ctxt de col1 ctxt1 heq1
        have h2 := lowerExpr_stack endingExpression col1 ctxt1 ee col2 ctxt2 heq2
        simp only [Option.some.injEq, Prod.mk.injEq] at h
        obtain ⟨-, -, hc⟩ := h
        have hs : ctxt2.stack = ("" :: p) ++ ctxt.stack := by
          rw [h2, hp]
          rfl
        have hdrop :
            StackContext.drop_subcontext ctxt2.stack
              (StackContext.new_subcontext ctxt.stack) = ctxt.stack := by
          rw [hs]
          simpa [StackContext.new_subcontext] using
            drop_subcontext_append ("" :: p) ctxt.stack
        rw [← hc]
        simp [StackContext.push_anonymous, hdrop]
  | .ident name =>
    simp only [lowerExpr] at h
    split at h
    next stackOffset heq =>
      simp only [Option.some.injEq, Prod.mk.injEq] at h
      obtain ⟨-, -, hc⟩ := h
      rw [← hc]
      rfl
    next heq =>
      simp only [Option.some.injEq, Prod.mk.injEq] at h
      obtain ⟨-, -, hc⟩ := h
      rw [← hc]
      rfl
  | .bool_ b =>
    simp only [lowerExpr, Option.some.injEq, Prod.mk.injEq] at h
    obtain ⟨-, -, hc⟩ := h
    rw [← hc]
    rfl

/-- Stack effect of the binding list of `Bindings::lower`: each binding
pushes one named slot. -/
theorem lowerBindingList_stack (bl : BindingList)
    (col : List Compiler.Instruction) (ctxt : LoweringContext) (r : Bool)
    (col' : List Compiler.Instruction) (ctxt' : LoweringContext)
    (h : lowerBindingList bl col ctxt = some (r, col', ctxt')) :
    ∃ p : List String,
      ctxt'.stack = p ++ ctxt.stack ∧ p.length = bl.length := by
  match bl with
  | .nil =>
    simp only [lowerBindingList, Option.some.injEq, Prod.mk.injEq] at h
    obtain ⟨-, -, hc⟩ := h
    exact ⟨[], by rw [← hc]; simp, rfl⟩
  | .cons b tail =>
    simp only [lowerBindingList] at h
    split at h
    · exact Option.noConfusion h
    next be col1 ctxt1 heq1 =>
      split at h
      · exact Option.noConfusion h
      next te col2 ctxt2 heq2 =>
        have h1 := lowerBinding_stack b col ctxt be col1 ctxt1 heq1
        obtain ⟨p, hp, hlen⟩ :=
          lowerBindingList_stack tail col1 ctxt1 te col2 ctxt2 heq2
        simp only [Option.some.injEq, Prod.mk.injEq] at h
        obtain ⟨-, -, hc⟩ := h
        refine ⟨p ++ [b.name], ?_, by simp [hlen, BindingList.length]⟩
        rw [← hc, hp, h1]
        simp

/-- Stack effect of `Binding::lower`: the value pushes one anonymous slot,
which is then renamed to the binding's name. -/
theorem lowerBinding_stack (b : Binding) (col : List Compiler.Instruction)
    (ctxt : LoweringContext) (r : Bool)
    (col' : List Compiler.Instruction) (ctxt' : LoweringContext)
    (h : lowerBinding b col ctxt = some (r, col', ctxt')) :
    ctxt'.stack = b.name :: ctxt.stack := by
  match b with
  | .mk name value =>
    simp only [lowerBinding] at h
    split at h
    · exact Option.noConfusion h
    next ve col1 ctxt1 heq1 =>
      have h1 := lowerExpr_stack value col ctxt ve col1 ctxt1 heq1
      split at h
      · exact Option.noConfusion h
      next st heq2 =>
        rw [h1, name_top_anonymous_anon] at heq2
        simp only [Except.ok.injEq] at heq2
        simp only [Option.some.injEq, Prod.mk.injEq] at h
        obtain ⟨-, -, hc⟩ := h
        rw [← hc, ← heq2]
        rfl

end

/-- C2: for every expression whose lowering completes, the compile-time
stack ends as the starting stack with exactly one extra anonymous slot on
top (so every per-form emission rule net-pushes exactly one anonymous
value); in particular an expression lowered standalone from the empty
stack leaves a stack of depth exactly 1 whose top is anonymous. -/
theorem C2_lowering_stack_invariant :
    (∀ (e : ExprKind) (col : List Compiler.Instruction)
        (ctxt : LoweringContext) (r : Bool)
        (col' : List Compiler.Instruction) (ctxt' : LoweringContext),
      lowerExpr e col ctxt = some (r, col', ctxt') →
      ctxt'.stack = "" :: ctxt.stack) ∧
    (∀ (e : ExprKind) (r : Bool) (col' : List Compiler.Instruction)
        (ctxt' : LoweringContext),
      lowerExpr e [] LoweringContext.new = some (r, col', ctxt') →
      ctxt'.stack.length = 1 ∧ ctxt'.stack.head? = some "") := by
  refine ⟨fun e col ctxt r col' ctxt' h =>
    lowerExpr_stack e col ctxt r col' ctxt' h, ?_⟩
  intro e r col' ctxt' h
  have hs := lowerExpr_stack e [] LoweringContext.new r col' ctxt' h
  rw [hs]
  exact ⟨rfl, rfl⟩

theorem C2_lowering_stack_invariant_witness :
    (lowerExpr (.addition (.integer 40) (.integer 2)) []
        LoweringContext.new =
      some (true, [.pushI 40, .pushI 2, .addI],
        { labels := { anonymous := [], named := [] }, stack := [""],
          errs := [] })) ∧
    ({ labels := { anonymous := [], named := [] }, stack := [""],
        errs := [] } : LoweringContext).stack.length = 1 ∧
    ({ labels := { anonymous := [], named := [] }, stack := [""],
        errs := [] } : LoweringContext).stack.head? = some "" :=
  ⟨rfl, C2_lowering_stack_invariant.2 (.addition (.integer 40) (.integer 2))
    true [.pushI 40, .pushI 2, .addI]
    { labels := { anonymous := [], named := [] }, stack := [""], errs := [] }
    rfl⟩

theorem resolve_go_append (s₁ s₂ : List String) (name : String) (d : Nat)
    (h : name ∉ s₁) :
    StackContext.resolve.go name (s₁ ++ name :: s₂) d =
      some ((d + s₁.length) % 65536) := by
  induction s₁ generalizing d with
  | nil => simp [StackContext.resolve.go]
  | cons a tl ih =>
    have ha : ¬ (a = name) := fun e => h (by simp [e])
    have htl : name ∉ tl := fun m => h (by simp [m])
    simp only [List.cons_append, StackContext.resolve.go, ha, if_false,
      List.append_eq]
    rw [ih (d + 1) htl]
    congr 1
    simp [List.length_cons]
    omega

/-- C9: name resolution on the compile-time stack is innermost-wins: when
a name occurs several times, `StackContext::resolve` returns the
depth-from-top of the most recently pushed occurrence (the stack is listed
top first), and lowering an identifier under shadowing emits a `push_copy`
whose offset refers to that innermost binding. -/
theorem C9_resolve_innermost :
    (∀ (s₁ s₂ : List String) (name : String),
      name ∉ s₁ → s₁.length < 65536 →
      StackContext.resolve (s₁ ++ name :: s₂) name = some s₁.length) ∧
    (∀ (s₁ s₂ : List String) (name : String)
        (col : List Compiler.Instruction) (labels : LabelContext)
        (errs : List String),
      name ∉ s₁ → s₁.length < 65536 →
      lowerExpr (.ident name) col
          { labels := labels, stack := s₁ ++ name :: s₂, errs := errs } =
        some (true, col ++ [.pushCopy s₁.length],
          { labels := labels, stack := "" :: (s₁ ++ name :: s₂),
            errs := errs })) := by
  have hres : ∀ (s₁ s₂ : List String) (name : String),
      name ∉ s₁ → s₁.length < 65536 →
      StackContext.resolve (s₁ ++ name :: s₂) name = some s₁.length := by
    intro s₁ s₂ name h hlen
    unfold StackContext.resolve
    rw [resolve_go_append s₁ s₂ name 0 h]
    congr 1
    omega
  refine ⟨hres, ?_⟩
  intro s₁ s₂ name col labels errs h hlen
  simp [lowerExpr, hres s₁ s₂ name h hlen, StackContext.push_anonymous]

theorem C9_resolve_innermost_witness :
    ("x" ∉ (["y"] : List String)) ∧
    StackContext.resolve (["y"] ++ "x" :: ["x"]) "x" = some 1 ∧
    lowerExpr (.ident "x") []
        { labels := { anonymous := [], named := [] },
          stack := ["y"] ++ "x" :: ["x"], errs := [] } =
      some (true, [.pushCopy 1],
        { labels := { anonymous := [], named := [] },
          stack := "" :: (["y"] ++ "x" :: ["x"]), errs := [] }) :=
  ⟨by decide, C9_resolve_innermost.1 ["y"] ["x"] "x" (by decide) (by decide),
    C9_resolve_innermost.2 ["y"] ["x"] "x" []
      { anonymous := [], named := [] } [] (by decide) (by decide)⟩

namespace Vm

/-- C5 counterexample: the claim says every slot offset or depth operand
designating a position outside the current stack makes the step return an
`OutOfBoundStackAccess` error.  But `ret` with `shrink_offset = 3` on a
one-element stack steps successfully: `Stack::truncate` computes
`len - idx` in `usize`, which wraps, and `Vec::truncate` with an oversized
length keeps the whole vector, so no error is returned. -/
theorem C5_counterexample_ret_shrink :
    ([Value.instructionPointer 5] : Stack).length < 3 ∧
    runInstruction (.ret 3 0)
        { stack := [.instructionPointer 5], ip := 0 } =
      .ok (.cont { stack := [.instructionPointer 5], ip := 5 }) :=
  ⟨by decide, rfl⟩

/-- C5 (amended): an offset or depth operand designating a position
outside the current stack makes the step return `OutOfBoundStackAccess`
for `push_copy`, `pop_copy` (on a non-empty stack), `pop`, and `ret`'s
`ip_offset` — but `ret`'s `shrink_offset` is silently clamped (see the
counterexample) — and an opcode expecting an `Integer` that finds another
variant makes the step return a `TypeMismatch` error; the step function is
total and returns the error instead of proceeding. -/
theorem C5_step_errors_amended :
    (∀ (state : RunningInterpreterState) (idx : Nat),
      state.stack.length ≤ idx → idx < 65536 →
      runInstruction (.pushCopy idx) state = .error .outOfBoundStackAccess) ∧
    (∀ (state : RunningInterpreterState) (offset : Nat),
      1 ≤ state.stack.length → state.stack.length ≤ offset →
      offset < 65536 →
      runInstruction (.popCopy offset) state =
        .error .outOfBoundStackAccess) ∧
    (∀ (state : RunningInterpreterState) (shrink ipOff : Nat),
      state.stack.length ≤ ipOff → ipOff < 65536 →
      runInstruction (.ret shrink ipOff) state =
        .error .outOfBoundStackAccess) ∧
    (∀ (state : RunningInterpreterState) (count : Nat),
      state.stack.length < count →
      runInstruction (.pop count) state = .error .outOfBoundStackAccess) ∧
    (∀ (state : RunningInterpreterState) (rest : Stack) (v : Value),
      state.stack = rest ++ [v] → (∀ n, v ≠ .integer n) →
      runInstruction .addI state = .error (.typeMismatch .integer v) ∧
      runInstruction .neg state = .error (.typeMismatch .integer v) ∧
      runInstruction .mul state = .error (.typeMismatch .integer v) ∧
      ∀ a b c : Nat, runInstruction (.condJmp a b c) state =
        .error (.typeMismatch .integer v)) := by
  refine ⟨?_, ?_, ?_, ?_, ?_⟩
  · intro state idx hge hlt
    simp only [runInstruction, Stack.copy_value]
    by_cases h0 : state.stack.length = 0
    · simp [h0]
    · have hnone :
          state.stack[wrapSub (wrapSub state.stack.length 1) idx]? =
            none := by
        rw [← List.get?_eq_getElem?]
        apply List.get?_eq_none.mpr
        unfold wrapSub
        omega
      simp [h0, hnone]
  · intro state offset h1 hge hlt
    rcases List.eq_nil_or_concat state.stack with hnil | ⟨ys, y, hys⟩
    · rw [hnil] at h1; simp at h1
    · have hpop : Stack.pop state.stack = .ok (y, ys) := by
        simp [Stack.pop, hys, List.getLast?_concat, List.dropLast_concat]
      have hlen : state.stack.length = ys.length + 1 := by simp [hys]
      have hidx : ¬ wrapSub ys.length offset < ys.length := by
        unfold wrapSub
        omega
      simp [runInstruction, hpop, Stack.replace, hidx]
  · intro state shrink ipOff hge hlt
    simp only [runInstruction, Stack.get_instruction_pointer_at_offset,
      Stack.get_at_offset]
    by_cases h0 : state.stack.length = 0
    · simp [h0]
    · have hnone :
          state.stack[wrapSub (wrapSub state.stack.length 1) ipOff]? =
            none := by
        rw [← List.get?_eq_getElem?]
        apply List.get?_eq_none.mpr
        unfold wrapSub
        omega
      simp [h0, hnone]
  · intro state count hlt
    have : ¬ count ≤ state.stack.length := by omega
    simp [runInstruction, this]
  · intro state rest v hst hv
    have hpop : Stack.pop state.stack = .ok (v, rest) := by
      simp [Stack.pop, hst, List.getLast?_concat, List.dropLast_concat]
    have hti : Stack.try_into_integer v =
        .error (.typeMismatch .integer v) := by
      cases v with
      | integer n => exact absurd rfl (hv n)
      | char c => rfl
      | instructionPointer ip => rfl
    have hpi : Stack.pop_integer state.stack =
        .error (.typeMismatch .integer v) := by
      simp [Stack.pop_integer, hpop, hti]
    refine ⟨by simp [runInstruction, hpi], by simp [runInstruction, hpi],
      by simp [runInstruction, hpi], ?_⟩
    intro a b c
    simp [runInstruction, hpi]

theorem C5_step_errors_amended_witness :
    (([Value.integer 1] : Stack).length ≤ 2 ∧ (2 : Nat) < 65536) ∧
    runInstruction (.pushCopy 2) { stack := [.integer 1], ip := 0 } =
      .error .outOfBoundStackAccess ∧
    runInstruction .addI { stack := [.instructionPointer 7], ip := 0 } =
      .error (.typeMismatch .integer (.instructionPointer 7)) :=
  ⟨⟨by decide, by decide⟩,
   C5_step_errors_amended.1 { stack := [.integer 1], ip := 0 } 2
     (by decide) (by decide),
   (C5_step_errors_amended.2.2.2.2 { stack := [.instructionPointer 7], ip := 0 }
     [] (.instructionPointer 7) rfl
     (fun n h => Value.noConfusion h)).1⟩

/-- C10: whenever the instruction pointer designates an index outside the
instruction list, the interpreter's fetch fails with an error naming that
index, and the run loop returns that error immediately — it performs no
further steps, whatever fuel remains. -/
theorem C10_ip_out_of_bounds (code : List Bytecode.Instruction)
    (state : RunningInterpreterState) (h : code.length ≤ state.ip) :
    run_single code state = .error (.instructionFetch state.ip) ∧
    ∀ fuel : Nat,
      run (fuel + 1) code state =
        some (.error (.instructionFetch state.ip)) := by
  have hg : code[state.ip]? = none := by
    rw [← List.get?_eq_getElem?]
    exact List.get?_eq_none.mpr h
  constructor
  · simp [run_single, hg]
  · intro fuel
    simp [run, run_single, hg]

theorem C10_ip_out_of_bounds_witness :
    ([Bytecode.Instruction.fStop].length ≤ 1) ∧
    run_single [.fStop] { stack := [], ip := 1 } =
      .error (.instructionFetch 1) ∧
    run 1 [.fStop] { stack := [], ip := 1 } =
      some (.error (.instructionFetch 1)) :=
  ⟨by decide,
   (C10_ip_out_of_bounds [.fStop] { stack := [], ip := 1 } (by decide)).1,
   (C10_ip_out_of_bounds [.fStop] { stack := [], ip := 1 } (by decide)).2 0⟩

end Vm

/-- C3: compiling `fn main() { if 1 { 42 } else { -1 } }` through the full
pipeline (parse, type check, lower, resolve) succeeds — producing exactly
the expected instruction list — and running the result yields
`Integer(42)`, even though `If::check_inputs` rejects the program (its
condition must be `Bool` and the literal `1` has type `Int`, so
`expect_bool` fails): the check-inputs verdict is not routed into the
pass outcome. -/
theorem C3_if_int_condition_pipeline :
    bytecode_from_program
        "fn main() \x7b if 1 \x7b 42 \x7d else \x7b -1 \x7d \x7d" =
      some (.ok [.pushI 1, .condJmp 2 4 2, .pushI 42, .goto 5, .pushI (-1),
        .fStop]) ∧
    Vm.run 100
        [.pushI 1, .condJmp 2 4 2, .pushI 42, .goto 5, .pushI (-1), .fStop]
        { stack := [], ip := 0 } =
      some (.ok (.integer 42)) ∧
    (check_inputs (ExprKind.if_ (.integer 1) (.integer 42) (.integer (-1)))
        { bindings := [], errs := [] }).1 = .error () ∧
    (get_output (ExprKind.integer 1) { bindings := [], errs := [] }).1 =
      .ok Ty.int ∧
    Ty.expect_bool Ty.int = .error { expected := Ty.bool, got := Ty.int } :=
  ⟨rfl, rfl, rfl, rfl, rfl⟩

namespace Parser

/-- C7 counterexample: the recovery diagnostic recorded for a `let`
binding missing its `=` reads `1:7: Excepted \`=\`` — `Excepted`, not the
claimed `Expected` — and the parse pass is not failed *iff* the error
list is non-empty: the unparseable input `@` fails the pass
(`CompilerPassError(0)`) with an empty error list. -/
theorem C7_counterexample_diagnostics :
    ((mkParsers 88).binding
        { src := "let x 42;".data, line := 1, col := 1 } []).2 =
      ["1:7: Excepted `=`"] ∧
    ("1:7: Excepted `=`" : String) ≠ "1:7: Expected `=`" ∧
    parse_input "@" = some (.error 0) :=
  ⟨rfl, by decide, rfl⟩

/-- C7 (amended): when a `let NAME = EXPR;` binding is missing its `=`
(resp. `;`), the parser records the diagnostic `LINE:COL: Excepted \`=\``
(resp. `` `;` ``) and continues as if the token were present, still
producing the binding (the fuel `8 * (length + 2)` is the one
`parse_input` assigns to these inputs); and whenever the `program` parser
itself produces a `Program`, the parse pass returns a failed `PassResult`
iff the accumulated error list is non-empty (an unparseable input also
fails the pass, with an empty list — see the counterexample). -/
theorem C7_recovery_amended :
    ((mkParsers 88).binding
        { src := "let x 42;".data, line := 1, col := 1 } [] =
      (.ok ({ src := [], line := 1, col := 10 },
        Binding.mk "x" (ExprKind.integer 42)), ["1:7: Excepted `=`"])) ∧
    ((mkParsers 96).binding
        { src := "let x = 42".data, line := 1, col := 1 } [] =
      (.ok ({ src := [], line := 1, col := 11 },
        Binding.mk "x" (ExprKind.integer 42)), ["1:11: Excepted `;`"])) ∧
    (∀ (text : String) (p : Program) (errs : List String),
      programP (8 * (text.data.length + 2))
          { src := text.data, line := 1, col := 1 } [] =
        some (.ok p, errs) →
      (parse_input text = some (.error errs.length) ↔ errs ≠ [])) := by
  refine ⟨rfl, rfl, ?_⟩
  intro text p errs hok
  unfold parse_input
  simp only []
  rw [hok]
  cases errs with
  | nil => simp
  | cons e es => simp

theorem C7_recovery_amended_witness :
    (programP (8 * (("fn main() \x7b let x 42; x \x7d" : String).data.length + 2))
        { src := ("fn main() \x7b let x 42; x \x7d" : String).data,
          line := 1, col := 1 } [] =
      some (.ok (Program.mk [Function.mk "main"
        (ExprKind.bindings
          (.cons (.mk "x" (ExprKind.integer 42)) .nil)
          (ExprKind.ident "x"))]),
        ["1:19: Excepted `=`"])) ∧
    (parse_input "fn main() \x7b let x 42; x \x7d" = some (.error 1) ↔
      (["1:19: Excepted `=`"] : List String) ≠ []) :=
  ⟨rfl, C7_recovery_amended.2.2 "fn main() \x7b let x 42; x \x7d"
    (Program.mk [Function.mk "main"
      (ExprKind.bindings (.cons (.mk "x" (ExprKind.integer 42)) .nil)
        (ExprKind.ident "x"))])
    ["1:19: Excepted `=`"] rfl⟩


/-! Helper lemmas for the grammar-shape theorems (C6): behaviour of the
token lexers on inputs decomposed into whitespace runs, digit runs and
operator characters. -/

theorem char_beq_false (a ch : Char) (h : a.toNat ≠ ch.toNat) :
    (a == ch) = false :=
  beq_eq_false_iff_ne.mpr (fun he => h (congrArg Char.toNat he))

theorem digit_not_space (ch : Char) (h : isDigitChar ch) :
    ¬ isSpaceChar ch := by
  unfold isDigitChar at h
  unfold isSpaceChar
  omega

theorem space_not_digit (ch : Char) (h : isSpaceChar ch) :
    ¬ isDigitChar ch := by
  unfold isSpaceChar at h
  unfold isDigitChar
  omega

theorem headNotDigit_append (w rest : List Char) (hw : spacesOnly w)
    (hrd : headNotDigit rest) : headNotDigit (w ++ rest) := by
  cases w with
  | nil => exact hrd
  | cons ch w' => exact space_not_digit ch (hw ch (List.mem_cons_self ch w'))

theorem skipSpaces_go_spaces :
    ∀ (w rest : List Char), spacesOnly w → headNotSpace rest →
    ∀ l c, ∃ l2 c2, skipSpaces.go (w ++ rest) l c = ⟨rest, l2, c2⟩ := by
  intro w
  induction w with
  | nil =>
    intro rest _ hrest l c
    cases rest with
    | nil => exact ⟨l, c, rfl⟩
    | cons ch tl =>
      exact ⟨l, c, by simp only [List.nil_append, skipSpaces.go, if_neg hrest]⟩
  | cons ch w' ih =>
    intro rest hw hrest l c
    have hch : isSpaceChar ch := hw ch (List.mem_cons_self ch w')
    have hw' : spacesOnly w' := fun a ha => hw a (List.mem_cons_of_mem ch ha)
    by_cases hnl : ch = '\n'
    · obtain ⟨l2, c2, h2⟩ := ih rest hw' hrest (l + 1) 1
      exact ⟨l2, c2, by
        simp only [List.cons_append, skipSpaces.go, if_pos hch, if_pos hnl]
        exact h2⟩
    · obtain ⟨l2, c2, h2⟩ := ih rest hw' hrest l (c + 1)
      exact ⟨l2, c2, by
        simp only [List.cons_append, skipSpaces.go, if_pos hch, if_neg hnl]
        exact h2⟩

theorem skipSpaces_go_nospace (rest : List Char) (hrest : headNotSpace rest)
    (l c : Nat) : skipSpaces.go rest l c = ⟨rest, l, c⟩ := by
  cases rest with
  | nil => rfl
  | cons ch tl => simp only [skipSpaces.go, if_neg hrest]

theorem takeWhile_digits :
    ∀ (d rest : List Char), (∀ ch ∈ d, isDigitChar ch) → headNotDigit rest →
    (d ++ rest).takeWhile (fun ch => decide (isDigitChar ch)) = d := by
  intro d
  induction d with
  | nil =>
    intro rest _ hrest
    cases rest with
    | nil => rfl
    | cons ch tl =>
      simp only [List.nil_append, List.takeWhile_cons]
      rw [decide_eq_false hrest]
      simp
  | cons a d' ih =>
    intro rest hd hrest
    have ha : isDigitChar a := hd a (List.mem_cons_self a d')
    simp only [List.cons_append, List.takeWhile_cons]
    rw [decide_eq_true ha]
    simp only [if_true, List.cons.injEq, true_and]
    exact ih rest (fun ch hm => hd ch (List.mem_cons_of_mem a hm)) hrest

theorem advanceBy_src : ∀ (n : Nat) (i : Input),
    (advanceBy i n).src = i.src.drop n := by
  intro n
  induction n with
  | zero => intro i; rfl
  | succ n ih =>
    intro i
    show (advanceBy (advance1 i) n).src = i.src.drop (n + 1)
    rw [ih (advance1 i)]
    cases h : i.src with
    | nil => simp [advance1, h]
    | cons ch rest =>
      simp only [advance1, h]
      split <;> simp

theorem advanceBy_eq (n : Nat) (i : Input) :
    ∃ l2 c2, advanceBy i n = ⟨i.src.drop n, l2, c2⟩ :=
  ⟨(advanceBy i n).line, (advanceBy i n).col, by rw [← advanceBy_src n i]⟩

theorem tag_of_prefix (t : String) (i : Input) (c : List String)
    (h : t.data.isPrefixOf i.src = true) :
    tag t i c = (.ok (advanceBy i t.data.length, t), c) := by
  unfold tag
  rw [if_pos h]

theorem tag_of_not_prefix (t : String) (i : Input) (c : List String)
    (h : t.data.isPrefixOf i.src = false) :
    tag t i c = (.error (.err i), c) := by
  unfold tag
  rw [if_neg (by simp [h])]

theorem isPrefixOf_singleton_cons (a ch : Char) (l : List Char) :
    List.isPrefixOf [a] (ch :: l) = (a == ch) := by
  simp [List.isPrefixOf]

theorem parseI32_digits (dh : Char) (dt : List Char)
    (hd : ∀ ch ∈ dh :: dt, isDigitChar ch)
    (hv : digitsVal (dh :: dt) < 2147483648) :
    parseI32 (String.mk (dh :: dt)) =
      some ((digitsVal (dh :: dt) : Nat) : Int) := by
  have hdh : isDigitChar dh := hd dh (List.mem_cons_self dh dt)
  have hne : dh ≠ '-' := by
    intro he
    rw [he] at hdh
    exact absurd hdh (by decide)
  unfold parseI32
  simp only []
  have hm : (match (String.mk (dh :: dt)).data with
      | '-' :: rest => (true, rest)
      | other => (false, other)) = (false, dh :: dt) := by
    show (match dh :: dt with
      | '-' :: rest => (true, rest)
      | other => (false, other)) = (false, dh :: dt)
    split
    next rest heq =>
      exact absurd (List.head_eq_of_cons_eq heq) hne
    next => rfl
  rw [hm]
  simp only []
  rw [if_neg (show ¬ ((false : Bool) = true) from Bool.false_ne_true)]
  have hvv : ((digitsVal (dh :: dt) : Nat) : Int) < 2147483648 := by
    exact_mod_cast hv
  have hge : (-2147483648 : Int) ≤ ((digitsVal (dh :: dt) : Nat) : Int) := by
    have h0 : (0 : Int) ≤ ((digitsVal (dh :: dt) : Nat) : Int) :=
      Int.ofNat_nonneg _
    omega
  rw [if_pos ⟨hge, hvv⟩]
  rfl


theorem int_lexeme (w w' rest d : List Char) (l c0 : Nat) (ctx : List String)
    (hw : spacesOnly w) (hw' : spacesOnly w')
    (hd : ∀ ch ∈ d, isDigitChar ch) (hne : d ≠ [])
    (hrs : headNotSpace rest) (hrd : headNotDigit rest) :
    ∃ l2 c2, space_insignificant (recognize (pairP (popt (tag "-")) digit1))
        ⟨w ++ (d ++ (w' ++ rest)), l, c0⟩ ctx =
      (.ok (⟨rest, l2, c2⟩, String.mk d), ctx) := by
  obtain ⟨dh, dt, rfl⟩ : ∃ dh dt, d = dh :: dt := by
    cases d with
    | nil => exact absurd rfl hne
    | cons a b => exact ⟨a, b, rfl⟩
  have hdh : isDigitChar dh := hd dh (List.mem_cons_self dh dt)
  obtain ⟨l1, c1, hs1⟩ := skipSpaces_go_spaces w ((dh :: dt) ++ (w' ++ rest))
    hw (digit_not_space dh hdh) l c0
  have hpre : ("-" : String).data.isPrefixOf ((dh :: dt) ++ (w' ++ rest)) =
      false := by
    show List.isPrefixOf ['-'] (dh :: (dt ++ (w' ++ rest))) = false
    rw [isPrefixOf_singleton_cons]
    refine char_beq_false '-' dh ?_
    have h45 : ('-' : Char).toNat = 45 := rfl
    unfold isDigitChar at hdh
    omega
  have htag : tag "-" ⟨(dh :: dt) ++ (w' ++ rest), l1, c1⟩ ctx =
      (.error (.err ⟨(dh :: dt) ++ (w' ++ rest), l1, c1⟩), ctx) :=
    tag_of_not_prefix "-" _ ctx hpre
  have htw : ((dh :: dt) ++ (w' ++ rest)).takeWhile
      (fun ch => decide (isDigitChar ch)) = dh :: dt :=
    takeWhile_digits (dh :: dt) (w' ++ rest) hd
      (headNotDigit_append w' rest hw' hrd)
  obtain ⟨la, ca, hadv⟩ := advanceBy_eq (dh :: dt).length
    ⟨(dh :: dt) ++ (w' ++ rest), l1, c1⟩
  simp only [] at hadv
  rw [List.drop_left] at hadv
  have hdig : digit1 ⟨(dh :: dt) ++ (w' ++ rest), l1, c1⟩ ctx =
      (.ok (⟨w' ++ rest, la, ca⟩, String.mk (dh :: dt)), ctx) := by
    unfold digit1
    simp only []
    rw [htw]
    rw [if_neg (by simp)]
    rw [hadv]
  have htake : ((dh :: dt) ++ (w' ++ rest)).take
      (((dh :: dt) ++ (w' ++ rest)).length - (w' ++ rest).length) =
      dh :: dt := by
    rw [List.length_append, Nat.add_sub_cancel]
    exact List.take_left _ _
  obtain ⟨l2, c2, hs2⟩ := skipSpaces_go_spaces w' rest hw' hrs la ca
  refine ⟨l2, c2, ?_⟩
  unfold space_insignificant delimitedP preceded terminated pmap pairP
    popt recognize multispace0 skipSpaces
  simp only []
  rw [hs1]
  simp only []
  rw [htag]
  simp only []
  rw [hdig]
  simp only []
  rw [htake]
  rw [hs2]

theorem integer_digits (w w' rest d : List Char) (l c0 : Nat)
    (ctx : List String)
    (hw : spacesOnly w) (hw' : spacesOnly w')
    (hd : ∀ ch ∈ d, isDigitChar ch) (hne : d ≠ [])
    (hrs : headNotSpace rest) (hrd : headNotDigit rest)
    (hv : digitsVal d < 2147483648) :
    ∃ l2 c2, integer ⟨w ++ (d ++ (w' ++ rest)), l, c0⟩ ctx =
      (.ok (⟨rest, l2, c2⟩, ExprKind.integer (digitsVal d)), ctx) := by
  obtain ⟨dh, dt, rfl⟩ : ∃ dh dt, d = dh :: dt := by
    cases d with
    | nil => exact absurd rfl hne
    | cons a b => exact ⟨a, b, rfl⟩
  obtain ⟨l2, c2, hlex⟩ :=
    int_lexeme w w' rest (dh :: dt) l c0 ctx hw hw' hd hne hrs hrd
  refine ⟨l2, c2, ?_⟩
  unfold integer
  rw [hlex]
  simp only []
  rw [parseI32_digits dh dt hd hv]

theorem atomic_digits (f : Nat) (w w' rest d : List Char) (l c0 : Nat)
    (ctx : List String)
    (hw : spacesOnly w) (hw' : spacesOnly w')
    (hd : ∀ ch ∈ d, isDigitChar ch) (hne : d ≠ [])
    (hrs : headNotSpace rest) (hrd : headNotDigit rest)
    (hv : digitsVal d < 2147483648) :
    ∃ l2 c2,
      (mkParsers (f + 1)).atomic_expr ⟨w ++ (d ++ (w' ++ rest)), l, c0⟩ ctx =
        (.ok (⟨rest, l2, c2⟩, ExprKind.integer (digitsVal d)), ctx) := by
  obtain ⟨l2, c2, hint⟩ :=
    integer_digits w w' rest d l c0 ctx hw hw' hd hne hrs hrd hv
  refine ⟨l2, c2, ?_⟩
  show (alt5 integer (mkParsers f).if_else (mkParsers f).block bool_expr
      ident_expr) ⟨w ++ (d ++ (w' ++ rest)), l, c0⟩ ctx = _
  unfold alt5 alt2
  rw [hint]


theorem star_ok (w rest : List Char) (l c0 : Nat) (ctx : List String)
    (hw : spacesOnly w) (hrs : headNotSpace rest) :
    ∃ l2 c2, star ⟨'*' :: (w ++ rest), l, c0⟩ ctx =
      (.ok (⟨rest, l2, c2⟩, ()), ctx) := by
  have hns : ¬ isSpaceChar '*' := by decide
  have hs0 : skipSpaces.go ('*' :: (w ++ rest)) l c0 =
      ⟨'*' :: (w ++ rest), l, c0⟩ :=
    skipSpaces_go_nospace ('*' :: (w ++ rest)) hns l c0
  have hpre : ("*" : String).data.isPrefixOf ('*' :: (w ++ rest)) = true := by
    show List.isPrefixOf ['*'] ('*' :: (w ++ rest)) = true
    rw [isPrefixOf_singleton_cons]
    simp
  have htag := tag_of_prefix "*" ⟨'*' :: (w ++ rest), l, c0⟩ ctx hpre
  obtain ⟨la, ca, hadv⟩ :=
    advanceBy_eq (("*" : String).data.length) ⟨'*' :: (w ++ rest), l, c0⟩
  simp only [] at hadv
  rw [show ('*' :: (w ++ rest)).drop (("*" : String).data.length) =
    w ++ rest from rfl] at hadv
  rw [hadv] at htag
  obtain ⟨l2, c2, hs2⟩ := skipSpaces_go_spaces w rest hw hrs la ca
  refine ⟨l2, c2, ?_⟩
  unfold star space_insignificant delimitedP preceded terminated pmap pairP
    multispace0 skipSpaces
  rw [hs0]
  simp only []
  rw [htag]
  simp only []
  rw [hs2]

theorem star_err (rest : List Char) (l c0 : Nat) (ctx : List String)
    (hrs : headNotSpace rest)
    (hnp : ("*" : String).data.isPrefixOf rest = false) :
    star ⟨rest, l, c0⟩ ctx = (.error (.err ⟨rest, l, c0⟩), ctx) := by
  have hs0 : skipSpaces.go rest l c0 = ⟨rest, l, c0⟩ :=
    skipSpaces_go_nospace rest hrs l c0
  have htag := tag_of_not_prefix "*" ⟨rest, l, c0⟩ ctx hnp
  unfold star space_insignificant delimitedP preceded terminated pmap pairP
    multispace0 skipSpaces
  rw [hs0]
  simp only []
  rw [htag]

theorem level_0_operator_ok (op : Char) (rest : List Char) (l c0 : Nat)
    (ctx : List String) (hop : op = '+' ∨ op = '-') :
    ∃ l2 c2, level_0_operator ⟨op :: rest, l, c0⟩ ctx =
      (.ok (⟨rest, l2, c2⟩,
        if op = '+' then Level0Operator.plus else Level0Operator.minus),
        ctx) := by
  rcases hop with rfl | rfl
  · have hpre : ("+" : String).data.isPrefixOf ('+' :: rest) = true := by
      show List.isPrefixOf ['+'] ('+' :: rest) = true
      rw [isPrefixOf_singleton_cons]
      simp
    have htag := tag_of_prefix "+" ⟨'+' :: rest, l, c0⟩ ctx hpre
    obtain ⟨la, ca, hadv⟩ :=
      advanceBy_eq (("+" : String).data.length) ⟨'+' :: rest, l, c0⟩
    simp only [] at hadv
    rw [show ('+' :: rest).drop (("+" : String).data.length) =
      rest from rfl] at hadv
    rw [hadv] at htag
    refine ⟨la, ca, ?_⟩
    unfold level_0_operator pmap alt2
    simp only []
    rw [htag]
    simp
  · have hpre1 : ("+" : String).data.isPrefixOf ('-' :: rest) = false := by
      show List.isPrefixOf ['+'] ('-' :: rest) = false
      rw [isPrefixOf_singleton_cons]
      decide
    have htag1 := tag_of_not_prefix "+" ⟨'-' :: rest, l, c0⟩ ctx hpre1
    have hpre2 : ("-" : String).data.isPrefixOf ('-' :: rest) = true := by
      show List.isPrefixOf ['-'] ('-' :: rest) = true
      rw [isPrefixOf_singleton_cons]
      simp
    have htag2 := tag_of_prefix "-" ⟨'-' :: rest, l, c0⟩ ctx hpre2
    obtain ⟨la, ca, hadv⟩ :=
      advanceBy_eq (("-" : String).data.length) ⟨'-' :: rest, l, c0⟩
    simp only [] at hadv
    rw [show ('-' :: rest).drop (("-" : String).data.length) =
      rest from rfl] at hadv
    rw [hadv] at htag2
    refine ⟨la, ca, ?_⟩
    unfold level_0_operator pmap alt2
    simp only []
    rw [htag1]
    simp only []
    rw [htag2]
    simp

theorem level_0_operator_err_nil (l c0 : Nat) (ctx : List String) :
    level_0_operator ⟨[], l, c0⟩ ctx = (.error (.err ⟨[], l, c0⟩), ctx) :=
  rfl

theorem mkParsers_level1_eq (g : Nat) :
    (mkParsers (g + 2)).level_1_expression = fun i c =>
      match (mkParsers (g + 1)).atomic_expr i c with
      | (.error e, c) => (.error e, c)
      | (.ok (t, first), c) =>
        foldMany1 (pairP star (mkParsers (g + 1)).atomic_expr) first
          (fun lhs (x : Unit × ExprKind) =>
            ExprKind.multiplication lhs x.2) t c := rfl

theorem level1_stop (f : Nat) (w w' rest d : List Char) (l c0 : Nat)
    (ctx : List String)
    (hw : spacesOnly w) (hw' : spacesOnly w')
    (hd : ∀ ch ∈ d, isDigitChar ch) (hne : d ≠ [])
    (hrs : headNotSpace rest) (hrd : headNotDigit rest)
    (hv : digitsVal d < 2147483648)
    (hnp : ("*" : String).data.isPrefixOf rest = false) :
    ∃ e, (mkParsers (f + 2)).level_1_expression
        ⟨w ++ (d ++ (w' ++ rest)), l, c0⟩ ctx = (.error (.err e), ctx) := by
  obtain ⟨l2, c2, hatom⟩ :=
    atomic_digits f w w' rest d l c0 ctx hw hw' hd hne hrs hrd hv
  have hstar := star_err rest l2 c2 ctx hrs hnp
  refine ⟨⟨rest, l2, c2⟩, ?_⟩
  rw [mkParsers_level1_eq f]
  simp only []
  rw [hatom]
  simp only []
  unfold foldMany1 pairP
  simp only []
  rw [hstar]

theorem operand_digits (f : Nat) (w w' rest d : List Char) (l c0 : Nat)
    (ctx : List String)
    (hw : spacesOnly w) (hw' : spacesOnly w')
    (hd : ∀ ch ∈ d, isDigitChar ch) (hne : d ≠ [])
    (hrs : headNotSpace rest) (hrd : headNotDigit rest)
    (hv : digitsVal d < 2147483648)
    (hnp : ("*" : String).data.isPrefixOf rest = false) :
    ∃ l2 c2, (alt2 (mkParsers (f + 2)).level_1_expression
        (mkParsers (f + 2)).atomic_expr)
        ⟨w ++ (d ++ (w' ++ rest)), l, c0⟩ ctx =
      (.ok (⟨rest, l2, c2⟩, ExprKind.integer (digitsVal d)), ctx) := by
  obtain ⟨e, hl1⟩ :=
    level1_stop f w w' rest d l c0 ctx hw hw' hd hne hrs hrd hv hnp
  obtain ⟨l2, c2, hatom⟩ :=
    atomic_digits (f + 1) w w' rest d l c0 ctx hw hw' hd hne hrs hrd hv
  refine ⟨l2, c2, ?_⟩
  unfold alt2
  rw [hl1]
  simp only []
  exact hatom


theorem mkParsers_level0_eq (g : Nat) :
    (mkParsers (g + 3)).level_0_expression = fun i c =>
      match (alt2 (mkParsers (g + 2)).level_1_expression
          (mkParsers (g + 2)).atomic_expr) i c with
      | (.error e, c) => (.error e, c)
      | (.ok (t, first), c) =>
        foldMany1
          (pairP level_0_operator
            (alt2 (mkParsers (g + 2)).level_1_expression
              (mkParsers (g + 2)).atomic_expr))
          first
          (fun left (x : Level0Operator × ExprKind) =>
            x.1.make_expr left x.2) t c := rfl

theorem mkParsers_expr_succ (g : Nat) :
    (mkParsers (g + 1)).expr =
      alt3 (mkParsers g).level_0_expression
        (mkParsers g).level_1_expression
        (mkParsers g).atomic_expr := rfl

theorem op_not_space (op : Char) (hop : op = '+' ∨ op = '-') :
    ¬ isSpaceChar op := by
  rcases hop with rfl | rfl <;> decide

theorem op_not_digit (op : Char) (hop : op = '+' ∨ op = '-') :
    ¬ isDigitChar op := by
  rcases hop with rfl | rfl <;> decide

theorem op_head_star_false (op : Char) (R : List Char)
    (hop : op = '+' ∨ op = '-') :
    ("*" : String).data.isPrefixOf (op :: R) = false := by
  show List.isPrefixOf ['*'] (op :: R) = false
  rw [isPrefixOf_singleton_cons]
  rcases hop with rfl | rfl <;> decide

theorem make_expr_opExpr (op : Char) (a b : ExprKind) :
    (if op = '+' then Level0Operator.plus
      else Level0Operator.minus).make_expr a b = opExpr op a b := by
  by_cases h : op = '+' <;> simp [h, opExpr, Level0Operator.make_expr]

theorem level0_digits (f : Nat) (w0 da w1 w2 db w3 w4 dc w5 : List Char)
    (op1 op2 : Char) (l c0 : Nat) (ctx : List String)
    (hw0 : spacesOnly w0) (hw1 : spacesOnly w1) (hw2 : spacesOnly w2)
    (hw3 : spacesOnly w3) (hw4 : spacesOnly w4) (hw5 : spacesOnly w5)
    (hda : goodNum da) (hdb : goodNum db) (hdc : goodNum dc)
    (hop1 : op1 = '+' ∨ op1 = '-') (hop2 : op2 = '+' ∨ op2 = '-') :
    ∃ l2 c2, (mkParsers (f + 3)).level_0_expression
        ⟨w0 ++ (da ++ (w1 ++ op1 ::
          (w2 ++ (db ++ (w3 ++ op2 :: (w4 ++ (dc ++ w5))))))), l, c0⟩ ctx =
      (.ok (⟨[], l2, c2⟩,
        opExpr op2
          (opExpr op1 (ExprKind.integer (digitsVal da))
            (ExprKind.integer (digitsVal db)))
          (ExprKind.integer (digitsVal dc))), ctx) := by
  obtain ⟨hda1, hda2, hda3⟩ := hda
  obtain ⟨hdb1, hdb2, hdb3⟩ := hdb
  obtain ⟨hdc1, hdc2, hdc3⟩ := hdc
  obtain ⟨l1, c1, hfirst⟩ := operand_digits f w0 w1
    (op1 :: (w2 ++ (db ++ (w3 ++ op2 :: (w4 ++ (dc ++ w5)))))) da l c0 ctx
    hw0 hw1 hda2 hda1 (op_not_space op1 hop1) (op_not_digit op1 hop1) hda3
    (op_head_star_false op1 _ hop1)
  obtain ⟨lx1, cx1, hoper1⟩ := level_0_operator_ok op1
    (w2 ++ (db ++ (w3 ++ op2 :: (w4 ++ (dc ++ w5))))) l1 c1 ctx hop1
  obtain ⟨l2', c2', hsecond⟩ := operand_digits f w2 w3
    (op2 :: (w4 ++ (dc ++ w5))) db lx1 cx1 ctx hw2 hw3 hdb2 hdb1
    (op_not_space op2 hop2) (op_not_digit op2 hop2) hdb3
    (op_head_star_false op2 _ hop2)
  obtain ⟨lx2, cx2, hoper2⟩ := level_0_operator_ok op2 (w4 ++ (dc ++ w5))
    l2' c2' ctx hop2
  obtain ⟨l3, c3, hthird⟩ := operand_digits f w4 w5 [] dc lx2 cx2 ctx
    hw4 hw5 hdc2 hdc1 (by trivial) (by trivial) hdc3 rfl
  rw [show w4 ++ (dc ++ (w5 ++ ([] : List Char))) = w4 ++ (dc ++ w5) by
    simp] at hthird
  refine ⟨l3, c3, ?_⟩
  rw [mkParsers_level0_eq f]
  simp only []
  rw [hfirst]
  simp only []
  unfold foldMany1 pairP
  simp only []
  rw [hoper1]
  simp only []
  rw [hsecond]
  simp only []
  rw [if_neg (show ¬ ((op2 :: (w4 ++ (dc ++ w5))).length =
      (op1 :: (w2 ++ (db ++ (w3 ++ op2 :: (w4 ++ (dc ++ w5)))))).length)
    from by
    have hpos : 0 < db.length := List.length_pos.mpr hdb1
    simp [List.length_cons, List.length_append]
    omega)]
  simp only [List.length_cons]
  unfold foldGo
  simp only []
  rw [hoper2]
  simp only []
  rw [hthird]
  simp only []
  rw [if_neg (show ¬ ((([] : List Char)).length =
      (op2 :: (w4 ++ (dc ++ w5))).length) from by simp)]
  obtain ⟨m, hm⟩ : ∃ m, (w4 ++ (dc ++ w5)).length = m + 1 := by
    have hpos : 0 < dc.length := List.length_pos.mpr hdc1
    refine ⟨(w4 ++ (dc ++ w5)).length - 1, ?_⟩
    simp [List.length_append]
    omega
  rw [hm]
  unfold foldGo
  simp only []
  rw [level_0_operator_err_nil]
  simp only [make_expr_opExpr]


theorem headNotSpace_digits (d X : List Char) (hd1 : d ≠ [])
    (hd2 : ∀ ch ∈ d, isDigitChar ch) : headNotSpace (d ++ X) := by
  cases d with
  | nil => exact absurd rfl hd1
  | cons a t => exact digit_not_space a (hd2 a (List.mem_cons_self a t))

theorem star_head_not_space (X : List Char) : headNotSpace ('*' :: X) := by
  show ¬ isSpaceChar '*'
  decide

theorem star_head_not_digit (X : List Char) : headNotDigit ('*' :: X) := by
  show ¬ isDigitChar '*'
  decide

theorem level1_star_digits (f : Nat) (w0 da w1 w2 db w3 w4 dc w5 : List Char)
    (l c0 : Nat) (ctx : List String)
    (hw0 : spacesOnly w0) (hw1 : spacesOnly w1) (hw2 : spacesOnly w2)
    (hw3 : spacesOnly w3) (hw4 : spacesOnly w4) (hw5 : spacesOnly w5)
    (hda : goodNum da) (hdb : goodNum db) (hdc : goodNum dc) :
    ∃ l2 c2, (mkParsers (f + 2)).level_1_expression
        ⟨w0 ++ (da ++ (w1 ++ '*' ::
          (w2 ++ (db ++ (w3 ++ '*' :: (w4 ++ (dc ++ w5))))))), l, c0⟩ ctx =
      (.ok (⟨[], l2, c2⟩,
        ExprKind.multiplication
          (ExprKind.multiplication (ExprKind.integer (digitsVal da))
            (ExprKind.integer (digitsVal db)))
          (ExprKind.integer (digitsVal dc))), ctx) := by
  obtain ⟨hda1, hda2, hda3⟩ := hda
  obtain ⟨hdb1, hdb2, hdb3⟩ := hdb
  obtain ⟨hdc1, hdc2, hdc3⟩ := hdc
  obtain ⟨l1, c1, hatom1⟩ := atomic_digits f w0 w1
    ('*' :: (w2 ++ (db ++ (w3 ++ '*' :: (w4 ++ (dc ++ w5)))))) da l c0 ctx
    hw0 hw1 hda2 hda1 (star_head_not_space _) (star_head_not_digit _) hda3
  obtain ⟨ls1, cs1, hstar1⟩ := star_ok w2
    (db ++ (w3 ++ '*' :: (w4 ++ (dc ++ w5)))) l1 c1 ctx hw2
    (headNotSpace_digits db _ hdb1 hdb2)
  obtain ⟨l2', c2', hatom2⟩ := atomic_digits f [] w3
    ('*' :: (w4 ++ (dc ++ w5))) db ls1 cs1 ctx (by decide) hw3 hdb2 hdb1
    (star_head_not_space _) (star_head_not_digit _) hdb3
  rw [List.nil_append] at hatom2
  obtain ⟨ls2, cs2, hstar2⟩ := star_ok w4 (dc ++ w5) l2' c2' ctx hw4
    (headNotSpace_digits dc _ hdc1 hdc2)
  obtain ⟨l3, c3, hatom3⟩ := atomic_digits f [] w5 [] dc ls2 cs2 ctx
    (by decide) hw5 hdc2 hdc1 (by trivial) (by trivial) hdc3
  rw [List.nil_append,
    show dc ++ (w5 ++ ([] : List Char)) = dc ++ w5 by simp] at hatom3
  refine ⟨l3, c3, ?_⟩
  rw [mkParsers_level1_eq f]
  simp only []
  rw [hatom1]
  simp only []
  unfold foldMany1 pairP
  simp only []
  rw [hstar1]
  simp only []
  rw [hatom2]
  simp only []
  rw [if_neg (show ¬ (('*' :: (w4 ++ (dc ++ w5))).length =
      ('*' :: (w2 ++ (db ++ (w3 ++ '*' :: (w4 ++ (dc ++ w5)))))).length)
    from by
    have hpos : 0 < db.length := List.length_pos.mpr hdb1
    simp [List.length_cons, List.length_append]
    omega)]
  simp only [List.length_cons]
  unfold foldGo
  simp only []
  rw [hstar2]
  simp only []
  rw [hatom3]
  simp only []
  rw [if_neg (show ¬ ((([] : List Char)).length =
      ('*' :: (w4 ++ (dc ++ w5))).length) from by simp)]
  unfold foldGo
  simp only []
  rw [star_err [] l3 c3 ctx (by trivial) rfl]

theorem level0_star_err (f : Nat) (w0 da w1 w2 db w3 w4 dc w5 : List Char)
    (l c0 : Nat) (ctx : List String)
    (hw0 : spacesOnly w0) (hw1 : spacesOnly w1) (hw2 : spacesOnly w2)
    (hw3 : spacesOnly w3) (hw4 : spacesOnly w4) (hw5 : spacesOnly w5)
    (hda : goodNum da) (hdb : goodNum db) (hdc : goodNum dc) :
    ∃ e, (mkParsers (f + 3)).level_0_expression
        ⟨w0 ++ (da ++ (w1 ++ '*' ::
          (w2 ++ (db ++ (w3 ++ '*' :: (w4 ++ (dc ++ w5))))))), l, c0⟩ ctx =
      (.error (.err e), ctx) := by
  obtain ⟨l1, c1, hl1⟩ := level1_star_digits f w0 da w1 w2 db w3 w4 dc w5
    l c0 ctx hw0 hw1 hw2 hw3 hw4 hw5 ⟨hda.1, hda.2.1, hda.2.2⟩
    ⟨hdb.1, hdb.2.1, hdb.2.2⟩ ⟨hdc.1, hdc.2.1, hdc.2.2⟩
  refine ⟨⟨[], l1, c1⟩, ?_⟩
  rw [mkParsers_level0_eq f]
  simp only []
  unfold alt2
  rw [hl1]
  simp only []
  unfold foldMany1 pairP
  simp only []
  rw [level_0_operator_err_nil]

theorem expr_level0_digits (f : Nat) (w0 da w1 w2 db w3 w4 dc w5 : List Char)
    (op1 op2 : Char) (l c0 : Nat) (ctx : List String)
    (hw0 : spacesOnly w0) (hw1 : spacesOnly w1) (hw2 : spacesOnly w2)
    (hw3 : spacesOnly w3) (hw4 : spacesOnly w4) (hw5 : spacesOnly w5)
    (hda : goodNum da) (hdb : goodNum db) (hdc : goodNum dc)
    (hop1 : op1 = '+' ∨ op1 = '-') (hop2 : op2 = '+' ∨ op2 = '-') :
    ∃ l2 c2, (mkParsers (f + 4)).expr
        ⟨w0 ++ (da ++ (w1 ++ op1 ::
          (w2 ++ (db ++ (w3 ++ op2 :: (w4 ++ (dc ++ w5))))))), l, c0⟩ ctx =
      (.ok (⟨[], l2, c2⟩,
        opExpr op2
          (opExpr op1 (ExprKind.integer (digitsVal da))
            (ExprKind.integer (digitsVal db)))
          (ExprKind.integer (digitsVal dc))), ctx) := by
  obtain ⟨l2, c2, h0⟩ := level0_digits f w0 da w1 w2 db w3 w4 dc w5 op1 op2
    l c0 ctx hw0 hw1 hw2 hw3 hw4 hw5 hda hdb hdc hop1 hop2
  refine ⟨l2, c2, ?_⟩
  rw [show f + 4 = f + 3 + 1 from rfl, mkParsers_expr_succ (f + 3)]
  unfold alt3 alt2
  rw [h0]

theorem expr_star_digits (f : Nat) (w0 da w1 w2 db w3 w4 dc w5 : List Char)
    (l c0 : Nat) (ctx : List String)
    (hw0 : spacesOnly w0) (hw1 : spacesOnly w1) (hw2 : spacesOnly w2)
    (hw3 : spacesOnly w3) (hw4 : spacesOnly w4) (hw5 : spacesOnly w5)
    (hda : goodNum da) (hdb : goodNum db) (hdc : goodNum dc) :
    ∃ l2 c2, (mkParsers (f + 4)).expr
        ⟨w0 ++ (da ++ (w1 ++ '*' ::
          (w2 ++ (db ++ (w3 ++ '*' :: (w4 ++ (dc ++ w5))))))), l, c0⟩ ctx =
      (.ok (⟨[], l2, c2⟩,
        ExprKind.multiplication
          (ExprKind.multiplication (ExprKind.integer (digitsVal da))
            (ExprKind.integer (digitsVal db)))
          (ExprKind.integer (digitsVal dc))), ctx) := by
  obtain ⟨e, h0⟩ := level0_star_err f w0 da w1 w2 db w3 w4 dc w5 l c0 ctx
    hw0 hw1 hw2 hw3 hw4 hw5 hda hdb hdc
  obtain ⟨l2, c2, h1⟩ := level1_star_digits (f + 1) w0 da w1 w2 db w3 w4 dc
    w5 l c0 ctx hw0 hw1 hw2 hw3 hw4 hw5 hda hdb hdc
  rw [show f + 1 + 2 = f + 3 from rfl] at h1
  refine ⟨l2, c2, ?_⟩
  rw [show f + 4 = f + 3 + 1 from rfl, mkParsers_expr_succ (f + 3)]
  unfold alt3 alt2
  rw [h0]
  simp only []
  rw [h1]

/-- C6: the parser gives `*` higher precedence than `+`/`-` and parses a
repeated operator at one level left-associatively: for every source text
of the form `a OP1 b OP2 c` — numeric atoms with arbitrary interleaving
whitespace — with OP1, OP2 ∈ \x7b`+`, `-`\x7d, or with both operators `*`,
the `expr` parser consumes the whole text and returns OP2 applied to
(OP1 a b) and c, a left spine; and the concrete text `10 * 4 + 2` parses
as `Addition(Multiplication(10, 4), 2)`. -/
theorem C6_precedence_left_assoc :
    (∀ (f : Nat) (w0 da w1 w2 db w3 w4 dc w5 : List Char) (op1 op2 : Char)
      (l c0 : Nat) (ctx : List String),
      spacesOnly w0 → spacesOnly w1 → spacesOnly w2 → spacesOnly w3 →
      spacesOnly w4 → spacesOnly w5 →
      goodNum da → goodNum db → goodNum dc →
      op1 = '+' ∨ op1 = '-' → op2 = '+' ∨ op2 = '-' →
      ∃ l2 c2, (mkParsers (f + 4)).expr
          ⟨w0 ++ (da ++ (w1 ++ op1 ::
            (w2 ++ (db ++ (w3 ++ op2 :: (w4 ++ (dc ++ w5))))))), l, c0⟩
          ctx =
        (.ok (⟨[], l2, c2⟩,
          opExpr op2
            (opExpr op1 (ExprKind.integer (digitsVal da))
              (ExprKind.integer (digitsVal db)))
            (ExprKind.integer (digitsVal dc))), ctx)) ∧
    (∀ (f : Nat) (w0 da w1 w2 db w3 w4 dc w5 : List Char)
      (l c0 : Nat) (ctx : List String),
      spacesOnly w0 → spacesOnly w1 → spacesOnly w2 → spacesOnly w3 →
      spacesOnly w4 → spacesOnly w5 →
      goodNum da → goodNum db → goodNum dc →
      ∃ l2 c2, (mkParsers (f + 4)).expr
          ⟨w0 ++ (da ++ (w1 ++ '*' ::
            (w2 ++ (db ++ (w3 ++ '*' :: (w4 ++ (dc ++ w5))))))), l, c0⟩
          ctx =
        (.ok (⟨[], l2, c2⟩,
          ExprKind.multiplication
            (ExprKind.multiplication (ExprKind.integer (digitsVal da))
              (ExprKind.integer (digitsVal db)))
            (ExprKind.integer (digitsVal dc))), ctx)) ∧
    (mkParsers 4).expr ⟨"10 * 4 + 2".data, 1, 1⟩ [] =
      (.ok (⟨[], 1, 11⟩,
        ExprKind.addition
          (ExprKind.multiplication (ExprKind.integer 10)
            (ExprKind.integer 4))
          (ExprKind.integer 2)), []) := by
  refine ⟨?_, ?_, ?_⟩
  · intro f w0 da w1 w2 db w3 w4 dc w5 op1 op2 l c0 ctx
      hw0 hw1 hw2 hw3 hw4 hw5 hda hdb hdc hop1 hop2
    exact expr_level0_digits f w0 da w1 w2 db w3 w4 dc w5 op1 op2 l c0 ctx
      hw0 hw1 hw2 hw3 hw4 hw5 hda hdb hdc hop1 hop2
  · intro f w0 da w1 w2 db w3 w4 dc w5 l c0 ctx
      hw0 hw1 hw2 hw3 hw4 hw5 hda hdb hdc
    exact expr_star_digits f w0 da w1 w2 db w3 w4 dc w5 l c0 ctx
      hw0 hw1 hw2 hw3 hw4 hw5 hda hdb hdc
  · rfl

theorem C6_precedence_left_assoc_witness :
    ∃ l2 c2, (mkParsers (1 + 4)).expr
        ⟨[] ++ (['1'] ++ ([' '] ++ '-' ::
          ([' '] ++ (['2'] ++ ([' '] ++ '+' ::
            ([' '] ++ (['3'] ++ ([] : List Char)))))))), 1, 1⟩ [] =
      (.ok (⟨[], l2, c2⟩,
        opExpr '+'
          (opExpr '-' (ExprKind.integer (digitsVal ['1']))
            (ExprKind.integer (digitsVal ['2'])))
          (ExprKind.integer (digitsVal ['3']))), []) :=
  C6_precedence_left_assoc.1 1 [] ['1'] [' '] [' '] ['2'] [' '] [' '] ['3']
    [] '-' '+' 1 1 [] (by decide) (by decide) (by decide) (by decide)
    (by decide) (by decide) (by decide) (by decide) (by decide)
    (Or.inr rfl) (Or.inl rfl)

end Parser

end Dyl
